import Mathlib

/-!
# WEBMETAR: the METAR decoder of `popup.js`

A shallow embedding of `decodeMetar`, its helpers (`classifyWind`,
`parseTemp`, `degToCompass`) and `parseMetarTime` from `src/popup.js`.

Modelling conventions

* A JavaScript string is a `List Char`.  Every pattern of the decoder tests
  only ASCII characters and (for `\s`) characters of the Basic Multilingual
  Plane, so a character outside the plane behaves like any other character
  that is neither a digit, a letter, an underscore nor white space.
* A JavaScript number that holds a non-negative integer is a `Nat`;
  `null` / `undefined` / an unset property of `out` is `none`.
* Each regular expression is embedded as a matcher that is tried at one
  position (`...At`), and `regexSearch` tries the positions from left to
  right as `String.prototype.match` does for a pattern without the `g` flag.
* The fields of `out` are HTML strings built from template literals; the
  embedding keeps the values that are interpolated into those templates.
* The clock read by `parseMetarTime` is a parameter, and a `Date` is its time
  value in milliseconds, computed as `Date.UTC` does (`MakeDay`, `MakeTime`,
  `TimeClip`).
-/

namespace WebMetar

/-! ## Character classes of the regular expressions -/

/-- The class `\d`: an ASCII decimal digit. -/
def isDigit (c : Char) : Bool :=
  decide (48 ≤ c.toNat) && decide (c.toNat ≤ 57)

/-- The class `\w`: `[A-Za-z0-9_]`. -/
def isWordChar (c : Char) : Bool :=
  isDigit c
    || (decide (65 ≤ c.toNat) && decide (c.toNat ≤ 90))
    || (decide (97 ≤ c.toNat) && decide (c.toNat ≤ 122))
    || decide (c.toNat = 95)

/-- The class `\s`: the ECMAScript white space and line terminator code points. -/
def isSpace (c : Char) : Bool :=
  let n := c.toNat
  decide (n = 9) || decide (n = 10) || decide (n = 11) || decide (n = 12) || decide (n = 13)
    || decide (n = 32) || decide (n = 160) || decide (n = 5760)
    || (decide (8192 ≤ n) && decide (n ≤ 8202))
    || decide (n = 8232) || decide (n = 8233) || decide (n = 8239) || decide (n = 8287)
    || decide (n = 12288) || decide (n = 65279)

/-- Numeric value of a decimal digit character. -/
def digitVal (c : Char) : Nat := c.toNat - 48

/-- The unary `+` applied to a captured group of decimal digits: its value in base ten. -/
def digitsVal (ds : List Char) : Nat :=
  ds.foldl (fun acc c => 10 * acc + digitVal c) 0

/-- Whether the character next to a position is a word character; outside the
string (`none`) counts as a non-word character. -/
def isWordAt (c : Option Char) : Bool :=
  match c with
  | some a => isWordChar a
  | none => false

/-- The assertion `\b` between the character before a position and the one after it. -/
def wordBoundary (prev next : Option Char) : Bool :=
  isWordAt prev != isWordAt next

/-- The leftmost match of a pattern: `m prev rest` tries the pattern at the position
whose preceding character is `prev` and whose remaining input is `rest`; positions are
tried from left to right, the end of the string included. -/
def regexSearch {α : Type} (m : Option Char → List Char → Option α) :
    Option Char → List Char → Option α
  | prev, [] => m prev []
  | prev, c :: t =>
    match m prev (c :: t) with
    | some r => some r
    | none => regexSearch m (some c) t

/-- The method `String.prototype.includes`: whether `pat` occurs in `s` as a substring. -/
def includes (s pat : List Char) : Bool :=
  match s with
  | [] => pat.isPrefixOf []
  | c :: t => pat.isPrefixOf (c :: t) || includes t pat

/-! ## Helpers of `popup.js` -/

/-- The function `classifyWind(s)` for a non-negative integer speed. -/
def classifyWind (s : Nat) : String :=
  if s ≥ 55 then "severe"
  else if s ≥ 40 then "strong"
  else if s ≥ 25 then "breezy"
  else ""

/-- The call `Math.round(n / m)` for non-negative integers `n` and positive `m`:
`Math.round` returns the integer nearest to its argument, a tie going to the larger
one, that is `⌊n / m + 1/2⌋`.  The quotient of the source is a binary64 number; for
the divisor 45 used there the exact quotient is never half-way between two integers
(45 is odd) and stays at least `1/90` away from such a point, so the rounding of the
division cannot change the result. -/
def mathRoundDiv (n m : Nat) : Nat := (2 * n + m) / (2 * m)

/-- The array literal indexed by `degToCompass`. -/
def compassPoints : List String := ["N", "NE", "E", "SE", "S", "SW", "W", "NW"]

/-- The function `degToCompass(d)` for a non-negative integer `d`; `none` is the
`undefined` of an index outside the array. -/
def degToCompass (d : Nat) : Option String :=
  compassPoints[mathRoundDiv d 45 % 8]?

/-- The predicate "every character is a decimal digit" used by the fixed-width groups. -/
def allDigits (ds : List Char) : Bool := ds.all isDigit

/-! ### Binary64 division and `toFixed(1)` -/

/-- Nearest integer to `n / d`, a tie going to the even one (the rounding of binary64). -/
def roundHalfEven (n d : Nat) : Nat :=
  let q := n / d
  let r := n % d
  if 2 * r < d then q
  else if d < 2 * r then q + 1
  else if q % 2 = 0 then q else q + 1

/-- The binary exponent of a binary64 quotient: the least `k` (searched upwards from the
given one, within `fuel` steps) with `2^52 ≤ a * 2^k / b`. -/
def f64Scale (a b : Nat) : Nat → Nat → Nat
  | 0, k => k
  | fuel + 1, k => if a * 2 ^ k < 2 ^ 52 * b then f64Scale a b fuel (k + 1) else k

/-- The binary64 quotient `a / b` of two integers below `2^53` with `0 < b` and a quotient
that is zero or lies between `2^-1022` and `2^53`: the pair `(m, k)` stands for the number
`m / 2^k`, where `m` is the 53-bit significand, the nearest integer to `a * 2^k / b` with a
tie going to the even one. -/
def f64Div (a b : Nat) : Nat × Nat :=
  if a = 0 then (0, 0)
  else
    let k := f64Scale a b 1074 0
    (roundHalfEven (a * 2 ^ k) b, k)

/-- The number of tenths chosen by `x.toFixed(1)` for the number `x = m / 2^k`: the integer
`n` for which `n / 10 - x` is as close to zero as possible, the larger one when there are
two. -/
def toFixed1Tenths (x : Nat × Nat) : Nat :=
  (20 * x.1 + 2 ^ x.2) / (2 * 2 ^ x.2)

/-- The string produced by `x.toFixed(1)` for the non-negative number `x = m / 2^k`. -/
def toFixed1 (x : Nat × Nat) : String :=
  toString (toFixed1Tenths x / 10) ++ "." ++ toString (toFixed1Tenths x % 10)

/-! ### `parseTemp` -/

/-- The call `parseInt(t)` on a string that starts with a decimal digit: the value of the
longest run of digits at its start.  `none` stands for `NaN` (no digit at the start);
the white space, sign and `0x` prefixes that `parseInt` also accepts are outside the
embedding, they cannot occur in a group captured by the temperature pattern. -/
def parseInt (t : List Char) : Option Nat :=
  match t.takeWhile isDigit with
  | [] => none
  | ds => some (digitsVal ds)

/-- The conversion `+t` of a string made of decimal digits only; `none` stands for every
other string, which a group captured by the temperature pattern never is. -/
def toNumber (t : List Char) : Option Nat :=
  if t ≠ [] ∧ allDigits t = true then some (digitsVal t) else none

/-- The function `parseTemp(t)`: `t.startsWith("M") ? -parseInt(t.slice(1)) : +t`. -/
def parseTemp (t : List Char) : Option Int :=
  match t with
  | 'M' :: rest => (parseInt rest).map fun n => -(n : Int)
  | _ => (toNumber t).map fun n => (n : Int)

/-! ## The patterns of `decodeMetar` -/

/-- The groups captured by `(\d{3})(\d{2})(G(\d{2}))?KT`: `g1`, `g2` and `g4` are the
elements 1, 2 and 4 of the match array; `g4 = none` is `undefined`. -/
structure WindMatch where
  g1 : List Char
  g2 : List Char
  g4 : Option (List Char)
deriving DecidableEq

/-- The optional group followed by the suffix, `G(\d{2})KT`, at the start of the input. -/
def gustKTAt (s : List Char) : Option (List Char) :=
  match s with
  | 'G' :: a :: b :: 'K' :: 'T' :: _ =>
    if isDigit a && isDigit b then some [a, b] else none
  | _ => none

/-- The pattern `(\d{3})(\d{2})(G(\d{2}))?KT` tried at the start of the input.  The
optional group is greedy: the alternative with the group is tried first and the one
without it (the suffix `KT` right after the speed) second. -/
def windAt (s : List Char) : Option WindMatch :=
  match s with
  | d1 :: d2 :: d3 :: s1 :: s2 :: rest =>
    if isDigit d1 && isDigit d2 && isDigit d3 && isDigit s1 && isDigit s2 then
      match gustKTAt rest with
      | some g => some ⟨[d1, d2, d3], [s1, s2], some g⟩
      | none =>
        match rest with
        | 'K' :: 'T' :: _ => some ⟨[d1, d2, d3], [s1, s2], none⟩
        | _ => none
    else none
  | _ => none

/-- The pattern `\b(\d{4})\b` tried at one position; the result is the captured group. -/
def visAt (prev : Option Char) (s : List Char) : Option (List Char) :=
  match s with
  | d1 :: d2 :: d3 :: d4 :: rest =>
    if wordBoundary prev (some d1)
        && (isDigit d1 && isDigit d2 && isDigit d3 && isDigit d4)
        && wordBoundary (some d4) rest.head? then
      some [d1, d2, d3, d4]
    else none
  | _ => none

/-- The pattern `\bRA\b` tried at one position. -/
def bareRAAt (prev : Option Char) (s : List Char) : Option Unit :=
  match s with
  | 'R' :: 'A' :: rest =>
    if wordBoundary prev (some 'R') && wordBoundary (some 'A') rest.head? then some ()
    else none
  | _ => none

/-- The coverage codes of the alternation `(FEW|SCT|BKN|OVC)`. -/
def coverageCodes : List (List Char) :=
  [['F', 'E', 'W'], ['S', 'C', 'T'], ['B', 'K', 'N'], ['O', 'V', 'C']]

/-- The pattern `(FEW|SCT|BKN|OVC)(\d{3})` tried at the start of the input; the result is
the pair of captured groups. -/
def cloudAt (s : List Char) : Option (List Char × List Char) :=
  match s with
  | c1 :: c2 :: c3 :: d1 :: d2 :: d3 :: _ =>
    if coverageCodes.contains [c1, c2, c3] && (isDigit d1 && isDigit d2 && isDigit d3) then
      some ([c1, c2, c3], [d1, d2, d3])
    else none
  | _ => none

/-- The scan behind `matchAll`: `skip` is the number of characters still to step over
before the position where the search resumes (`lastIndex`, the end of the previous
match); at such a position the pattern is tried, and a match of six characters moves
`lastIndex` six characters on. -/
def cloudScan : Nat → List Char → List (List Char × List Char)
  | _, [] => []
  | skip + 1, _ :: t => cloudScan skip t
  | 0, c :: t =>
    match cloudAt (c :: t) with
    | some m => m :: cloudScan 5 t
    | none => cloudScan 0 t

/-- The call `[...metar.matchAll(/(FEW|SCT|BKN|OVC)(\d{3})/g)]`: the matches from left to
right, each search starting at the end of the previous match. -/
def cloudMatches (s : List Char) : List (List Char × List Char) := cloudScan 0 s

/-- One side `M?\d{2}` of the temperature pattern at the start of the input: the captured
group and the input after it.  The optional `M` is greedy; the alternative without it
needs a digit where the `M` stands and cannot succeed after the first has failed. -/
def signedPairAt (s : List Char) : Option (List Char × List Char) :=
  match s with
  | 'M' :: d1 :: d2 :: rest =>
    if isDigit d1 && isDigit d2 then some (['M', d1, d2], rest) else none
  | d1 :: d2 :: rest =>
    if isDigit d1 && isDigit d2 then some ([d1, d2], rest) else none
  | _ => none

/-- The pattern ` (M?\d{2})\/(M?\d{2}) ` tried at the start of the input; the result is the
pair of captured groups. -/
def tempAt (s : List Char) : Option (List Char × List Char) :=
  match s with
  | ' ' :: r0 =>
    match signedPairAt r0 with
    | some (t1, '/' :: r1) =>
      match signedPairAt r1 with
      | some (t2, ' ' :: _) => some (t1, t2)
      | _ => none
    | _ => none
  | _ => none

/-- The pattern `Q(\d{4})` tried at the start of the input; the result is the captured
group. -/
def qnhAt (s : List Char) : Option (List Char) :=
  match s with
  | 'Q' :: d1 :: d2 :: d3 :: d4 :: _ =>
    if isDigit d1 && isDigit d2 && isDigit d3 && isDigit d4 then some [d1, d2, d3, d4]
    else none
  | _ => none

/-- The pattern `KAUKAU\s+(\d{3})(\d{2})(G(\d{2}))?KT` tried at the start of the input.
The quantifier `\s+` is greedy and takes every white space character after the name;
giving one back would leave the first digit of the group facing a white space character,
so no shorter run can succeed where the longest fails. -/
def kaukauAt (s : List Char) : Option WindMatch :=
  match s with
  | 'K' :: 'A' :: 'U' :: 'K' :: 'A' :: 'U' :: c :: rest =>
    if isSpace c then windAt (rest.dropWhile isSpace) else none
  | _ => none

/-! ## The decoded report -/

/-- The values interpolated into `out.wind`: the class `cls`, the direction, its compass
point, the speed, and the gust of the part `gusting ...` (absent when that part is the
empty string). -/
structure Wind where
  cls : String
  dir : Nat
  compass : Option String
  spd : Nat
  gusting : Option Nat
deriving DecidableEq

/-- The values interpolated into `out.visibility`: the metres `v` and the kilometre
figure `(v / 1000).toFixed(1)`. -/
structure Visibility where
  metres : Nat
  km : String
deriving DecidableEq

/-- The value of `out.cloudsHtml`: the mapped layers (name of the coverage and height in
feet), or the line `No clouds detected`. -/
inductive Clouds where
  | layers (ls : List (String × Nat))
  | noCloudsDetected
deriving DecidableEq

/-- The values interpolated into `out.temperature`. -/
structure Temperature where
  temp : Option Int
  dewPoint : Option Int
deriving DecidableEq

/-- The values interpolated into `out.kaukau`. -/
structure StationWind where
  cls : String
  dir : Nat
  compass : Option String
  spd : Nat
deriving DecidableEq

/-- The object `out` returned by `decodeMetar`; a property that is not set is `none`. -/
structure Report where
  wind : Option Wind := none
  visibility : Option Visibility := none
  weatherHtml : Option (List String) := none
  cloudsHtml : Option Clouds := none
  temperature : Option Temperature := none
  qnhValue : Option Nat := none
  kaukau : Option StationWind := none
deriving DecidableEq

/-- Truthiness of a variable that holds `null` or a non-negative integer: `null` and `0`
are falsy. -/
def truthy (x : Option Nat) : Bool :=
  match x with
  | some n => decide (n ≠ 0)
  | none => false

/-- The match `metar.match(/(\d{3})(\d{2})(G(\d{2}))?KT/)`. -/
def windMatch (metar : List Char) : Option WindMatch :=
  regexSearch (fun _ s => windAt s) none metar

/-- The variable `gust` of the wind block: `wind[4] ? +wind[4] : null`.  A captured group
holds two digits, a non-empty string, and is truthy. -/
def gustOf (w : WindMatch) : Option Nat := w.g4.map digitsVal

/-- The wind block of `decodeMetar`. -/
def decodeWind (metar : List Char) : Option Wind :=
  (windMatch metar).map fun w =>
    let dir := digitsVal w.g1
    let spd := digitsVal w.g2
    let gust := gustOf w
    let cls := if truthy gust then classifyWind (gust.getD 0) else classifyWind spd
    { cls := cls, dir := dir, compass := degToCompass dir, spd := spd,
      gusting := if truthy gust then gust else none }

/-- The match `metar.match(/\b(\d{4})\b/)`. -/
def visMatch (metar : List Char) : Option (List Char) :=
  regexSearch visAt none metar

/-- The visibility block of `decodeMetar`. -/
def decodeVisibility (metar : List Char) : Option Visibility :=
  (visMatch metar).map fun g =>
    let v := digitsVal g
    { metres := v, km := toFixed1 (f64Div v 1000) }

/-- The array `weather` of `decodeMetar` after the four tests. -/
def weatherList (metar : List Char) : List String :=
  (if includes metar "-RA".toList then ["• Light rain"]
   else if includes metar "+RA".toList then ["• Heavy rain"]
   else if (regexSearch bareRAAt none metar).isSome then ["• Rain"]
   else [])
  ++ (if includes metar "RERA".toList then ["• Recent rain"] else [])

/-- The object literal `{FEW:"Few",SCT:"Scattered",BKN:"Broken",OVC:"Overcast"}` indexed by
a captured code. -/
def coverageName (code : List Char) : String :=
  if code = "FEW".toList then "Few"
  else if code = "SCT".toList then "Scattered"
  else if code = "BKN".toList then "Broken"
  else if code = "OVC".toList then "Overcast"
  else "undefined"

/-- The mapping of one cloud match: the name of the coverage and `+c[2]*100`. -/
def cloudLayer (c : List Char × List Char) : String × Nat :=
  (coverageName c.1, digitsVal c.2 * 100)

/-- The clouds block of `decodeMetar`. -/
def decodeClouds (metar : List Char) : Option Clouds :=
  let clouds := cloudMatches metar
  if clouds.length ≠ 0 then some (Clouds.layers (clouds.map cloudLayer))
  else if includes metar "NCD".toList then some Clouds.noCloudsDetected
  else none

/-- The temperature block of `decodeMetar`. -/
def decodeTemperature (metar : List Char) : Option Temperature :=
  (regexSearch (fun _ s => tempAt s) none metar).map fun t =>
    { temp := parseTemp t.1, dewPoint := parseTemp t.2 }

/-- The pressure block of `decodeMetar`. -/
def decodeQnh (metar : List Char) : Option Nat :=
  (regexSearch (fun _ s => qnhAt s) none metar).map digitsVal

/-- The station block of `decodeMetar`. -/
def decodeKaukau (metar : List Char) : Option StationWind :=
  (regexSearch (fun _ s => kaukauAt s) none metar).map fun k =>
    let dir := digitsVal k.g1
    let spd := digitsVal k.g2
    { cls := classifyWind spd, dir := dir, compass := degToCompass dir, spd := spd }

/-- The function `decodeMetar(metar)`: the empty string is falsy and returns the empty
object at once. -/
def decodeMetar (metar : List Char) : Report :=
  if metar = [] then {}
  else
    { wind := decodeWind metar
      visibility := decodeVisibility metar
      weatherHtml :=
        if (weatherList metar).length ≠ 0 then some (weatherList metar) else none
      cloudsHtml := decodeClouds metar
      temperature := decodeTemperature metar
      qnhValue := decodeQnh metar
      kaukau := decodeKaukau metar }

/-- The end-to-end scenario of the specification. -/
def scenario : List Char :=
  "251150Z 28015G25KT 9999 -RA FEW020 BKN035 18/12 Q1015".toList

/-! ## Report time -/

/-- The calendar fields of the current date that `parseMetarTime` reads from `new Date()`:
`getUTCFullYear()`, `getUTCMonth()` (0 for January to 11 for December) and
`getUTCDate()`. -/
structure UTCDate where
  year : Int
  month : Int
  date : Int
deriving DecidableEq

/-- The year has 366 days (`DaysInYear` of ECMAScript). -/
def isLeapYear (y : Int) : Bool :=
  decide (y % 4 = 0) && (decide (y % 100 ≠ 0) || decide (y % 400 = 0))

/-- The number `DayFromYear(y)` of ECMAScript: the day number, counted from 1 January 1970,
of the first day of the year `y`. -/
def dayFromYear (y : Int) : Int :=
  365 * (y - 1970) + (y - 1969) / 4 - (y - 1901) / 100 + (y - 1601) / 400

/-- The day of the year, counted from 0, on which each month of a common year starts: the
bounds of the table of `MonthFromTime`. -/
def monthStarts : List Int := [0, 31, 59, 90, 120, 151, 181, 212, 243, 273, 304, 334]

/-- The number of days of a year before the first day of its month `mn` (0 to 11), from the
table of `MonthFromTime`: in a leap year the months from March on start one day later. -/
def daysBeforeMonth (leap : Bool) (mn : Int) : Int :=
  monthStarts.getD mn.toNat 0 + (if leap = true ∧ 2 ≤ mn then 1 else 0)

/-- The operation `MakeDay(year, month, date)`: the month is brought into `0..11` by moving
whole years, and the day number is that of the first day of that month plus `date - 1`, so
that a `date` beyond the end of the month runs on into the following months. -/
def makeDay (year month date : Int) : Int :=
  let ym := year + month / 12
  let mn := month % 12
  dayFromYear ym + daysBeforeMonth (isLeapYear ym) mn + date - 1

/-- The operation `MakeTime(hour, min, 0, 0)` in milliseconds. -/
def makeTime (hour min : Int) : Int := hour * 3600000 + min * 60000

/-- The operation `TimeClip`: a time value beyond 8.64e15 milliseconds from the epoch is
`NaN` (`none`), an invalid date. -/
def timeClip (t : Int) : Option Int :=
  if |t| ≤ 8640000000000000 then some t else none

/-- The call `Date.UTC(y, mo, d, h, m)` on integers: a year from 0 to 99 stands for
`1900 + y`; the result is the time value in milliseconds since the epoch. -/
def dateUTC (y mo d h m : Int) : Option Int :=
  let yr := if 0 ≤ y ∧ y ≤ 99 then 1900 + y else y
  timeClip (makeDay yr mo d * 86400000 + makeTime h m)

/-- The function `parseMetarTime(z)`, the current date read from the clock being the
parameter `now`; the result is the time value of the returned `Date`.  The token `z` is
made of digits in its first six places (it is a match of `\d{6}Z`), and `+z.slice(i, j)` is
the value of two digits. -/
def parseMetarTime (now : UTCDate) (z : List Char) : Option Int :=
  let d : Int := digitsVal (z.take 2)
  let h : Int := digitsVal ((z.drop 2).take 2)
  let m : Int := digitsVal ((z.drop 4).take 2)
  let mo := if d > now.date then now.month - 1 else now.month
  dateUTC now.year mo d h m

/-! ## Notions used to state the properties -/

/-- The pattern described by `P` occurs in the text `s` right after the prefix `pre`, with
the captured groups `r`: the rest of the text after `pre` starts with the pattern. -/
def OccursAt {α : Type} (P : List Char → α → Prop) (s pre : List Char) (r : α) : Prop :=
  ∃ rest, s = pre ++ rest ∧ P rest r

/-- The occurrence after `pre` is the leftmost occurrence of the pattern in the text. -/
def LeftmostAt {α : Type} (P : List Char → α → Prop) (s pre : List Char) (r : α) : Prop :=
  OccursAt P s pre r ∧ ∀ pre1 r1, OccursAt P s pre1 r1 → pre.length ≤ pre1.length

/-- The text `t` starts with `Q` immediately followed by the four digits `g`. -/
def QnhStarts (t g : List Char) : Prop :=
  ∃ post, t = 'Q' :: g ++ post ∧ g.length = 4 ∧ ∀ c ∈ g, isDigit c = true

/-- A side of the temperature pair: exactly two digits, optionally prefixed by `M`. -/
def IsSignedTwoDigits (t : List Char) : Prop :=
  ∃ d1 d2, isDigit d1 = true ∧ isDigit d2 = true ∧ (t = [d1, d2] ∨ t = ['M', d1, d2])

/-- The text `t` starts with a space, the pair `TT/DD` (the two sides being `r.1` and
`r.2`) and a space. -/
def TempPairStarts (t : List Char) (r : List Char × List Char) : Prop :=
  ∃ post, t = ' ' :: r.1 ++ '/' :: r.2 ++ ' ' :: post
    ∧ IsSignedTwoDigits r.1 ∧ IsSignedTwoDigits r.2

/-- The string `g` is a wind group with the captured parts `w`: three digits, two digits,
optionally `G` and two digits, and `KT`. -/
def IsWindGroup (w : WindMatch) (g : List Char) : Prop :=
  w.g1.length = 3 ∧ (∀ c ∈ w.g1, isDigit c = true)
    ∧ w.g2.length = 2 ∧ (∀ c ∈ w.g2, isDigit c = true)
    ∧ ((w.g4 = none ∧ g = w.g1 ++ w.g2 ++ ['K', 'T'])
      ∨ ∃ gg, w.g4 = some gg ∧ gg.length = 2 ∧ (∀ c ∈ gg, isDigit c = true)
          ∧ g = w.g1 ++ w.g2 ++ 'G' :: gg ++ ['K', 'T'])

/-- The text `t` starts with a wind group whose captured parts are `w`. -/
def WindGroupStarts (t : List Char) (w : WindMatch) : Prop :=
  ∃ g post, t = g ++ post ∧ IsWindGroup w g

/-- The text `t` starts with the literal `KAUKAU`, one or more white space characters
(`r.1`) and a wind group whose captured parts are `r.2`. -/
def StationGroupStarts (t : List Char) (r : List Char × WindMatch) : Prop :=
  ∃ g post, t = "KAUKAU".toList ++ r.1 ++ g ++ post
    ∧ r.1 ≠ [] ∧ (∀ c ∈ r.1, isSpace c = true) ∧ IsWindGroup r.2 g

/-- The text `t` starts with the literal `KAUKAU`, one or more white space characters and a
wind group whose captured parts are `w`. -/
def StationStarts (t : List Char) (w : WindMatch) : Prop :=
  ∃ ws, StationGroupStarts t (ws, w)

/-- The number of days of the month `mn` (0 to 11) of the year `y`. -/
def daysInMonth (y mn : Int) : Int :=
  if mn = 1 then (if isLeapYear y = true then 29 else 28)
  else if mn = 3 ∨ mn = 5 ∨ mn = 8 ∨ mn = 10 then 30
  else 31

/-- A calendar date and time of day in UTC: month `0..11`, a day that the month has, hour
`0..23`, minute `0..59`. -/
def ValidCivil (y mn d h m : Int) : Prop :=
  0 ≤ mn ∧ mn ≤ 11 ∧ 1 ≤ d ∧ d ≤ daysInMonth y mn ∧ 0 ≤ h ∧ h ≤ 23 ∧ 0 ≤ m ∧ m ≤ 59

instance (y mn d h m : Int) : Decidable (ValidCivil y mn d h m) := by
  unfold ValidCivil
  infer_instance

/-- The time value (milliseconds since 1 January 1970, 00:00 UTC) of the calendar date
`d` of the month `mn` of the year `y` at `h:m` UTC. -/
def civilTime (y mn d h m : Int) : Int :=
  (dayFromYear y + daysBeforeMonth (isLeapYear y) mn + (d - 1)) * 86400000
    + h * 3600000 + m * 60000

/-- A current date that the clock can show: a calendar date of a year in which `Date.UTC`
neither reads the year as `1900 + y` nor leaves the range of time values. -/
def ValidNow (now : UTCDate) : Prop :=
  100 ≤ now.year ∧ now.year ≤ 275759 ∧ 0 ≤ now.month ∧ now.month ≤ 11
    ∧ 1 ≤ now.date ∧ now.date ≤ daysInMonth now.year now.month

instance (now : UTCDate) : Decidable (ValidNow now) := by
  unfold ValidNow
  infer_instance

/-- The month before the month `mn` of the year `y`: its year and its number. -/
def previousMonth (y mn : Int) : Int × Int :=
  if mn = 0 then (y - 1, 11) else (y, mn - 1)

/-- The character before the position that follows `pre`, when the text starts after a
character `prev`. -/
def charBefore (prev : Option Char) (pre : List Char) : Option Char :=
  match pre.getLast? with
  | some c => some c
  | none => prev

/-- A run `g` of exactly four digits that stands alone between `pre` and `post`: the
character before it and the character after it, if any, are not word characters (letters,
digits, underscore). -/
def StandaloneFourDigits (pre g post : List Char) : Prop :=
  g.length = 4 ∧ (∀ c ∈ g, isDigit c = true)
    ∧ isWordAt pre.getLast? = false ∧ isWordAt post.head? = false

/-- The tokens of a text, tokens being separated by spaces (the reading of "token" in the
data model of the specification). -/
def spaceTokens : List Char → List (List Char)
  | [] => [[]]
  | c :: t =>
    if c = ' ' then [] :: spaceTokens t
    else
      match spaceTokens t with
      | [] => [[c]]
      | tok :: toks => (c :: tok) :: toks

/-- The text contains `RA` standing alone: the character before it and the character after
it, if any, are not word characters (letters, digits, underscore). -/
def BareRA (s : List Char) : Prop :=
  ∃ pre post, s = pre ++ 'R' :: 'A' :: post
    ∧ isWordAt pre.getLast? = false ∧ isWordAt post.head? = false

/-- The layer, if any, that the text shows at position `i`, in the words of the
specification: one of `FEW`, `SCT`, `BKN`, `OVC` immediately followed by three digits,
mapped to the name of the coverage and 100 times the three-digit number. -/
def cloudLayerAt (s : List Char) (i : Nat) : Option (String × Nat) :=
  let code := (s.drop i).take 3
  let ds := (s.drop (i + 3)).take 3
  if ds.length = 3 ∧ allDigits ds = true then
    if code = "FEW".toList then some ("Few", 100 * digitsVal ds)
    else if code = "SCT".toList then some ("Scattered", 100 * digitsVal ds)
    else if code = "BKN".toList then some ("Broken", 100 * digitsVal ds)
    else if code = "OVC".toList then some ("Overcast", 100 * digitsVal ds)
    else none
  else none

/-- Every occurrence of a layer in the text, from left to right, duplicates kept. -/
def cloudLayersOf (s : List Char) : List (String × Nat) :=
  (List.range s.length).filterMap (cloudLayerAt s)

/-- The matches of the cloud pattern at every position of the text, from left to right. -/
def cloudMatchesEverywhere : List Char → List (List Char × List Char)
  | [] => []
  | c :: t => (cloudAt (c :: t)).toList ++ cloudMatchesEverywhere t

/-- None of the seven extraction rules finds anything in the text: no wind group, no
standalone run of four digits, none of the four rain codes, no cloud layer and no `NCD`, no
temperature pair, no `Q` with four digits, no station group. -/
def NoRuleMatches (s : List Char) : Prop :=
  (¬ ∃ pre w, OccursAt WindGroupStarts s pre w)
  ∧ (¬ ∃ pre g post, s = pre ++ g ++ post ∧ StandaloneFourDigits pre g post)
  ∧ (¬ "-RA".toList <:+: s ∧ ¬ "+RA".toList <:+: s ∧ ¬ BareRA s
      ∧ ¬ "RERA".toList <:+: s)
  ∧ (cloudLayersOf s = [] ∧ ¬ "NCD".toList <:+: s)
  ∧ (¬ ∃ pre r, OccursAt TempPairStarts s pre r)
  ∧ (¬ ∃ pre g, OccursAt QnhStarts s pre g)
  ∧ (¬ ∃ pre w, OccursAt StationStarts s pre w)

/-! ## Basic facts about the helpers -/

theorem isDigit_iff (c : Char) : isDigit c = true ↔ 48 ≤ c.toNat ∧ c.toNat ≤ 57 := by
  simp [isDigit]

theorem isWordChar_of_isDigit {c : Char} (h : isDigit c = true) : isWordChar c = true := by
  simp [isWordChar, h]

theorem digitVal_le {c : Char} (h : isDigit c = true) : digitVal c ≤ 9 := by
  rw [isDigit_iff] at h
  unfold digitVal
  omega

theorem digitsVal_two (a b : Char) : digitsVal [a, b] = 10 * digitVal a + digitVal b := by
  simp [digitsVal]

theorem digitsVal_three (a b c : Char) :
    digitsVal [a, b, c] = 100 * digitVal a + 10 * digitVal b + digitVal c := by
  simp [digitsVal]
  ring

theorem digitsVal_four (a b c d : Char) :
    digitsVal [a, b, c, d]
      = 1000 * digitVal a + 100 * digitVal b + 10 * digitVal c + digitVal d := by
  simp [digitsVal]
  ring

/-- The integer model of `Math.round(n / m)` is the floor of the exact quotient plus one
half. -/
theorem mathRoundDiv_eq_floor (n m : Nat) (hm : 0 < m) :
    ((mathRoundDiv n m : Nat) : Int) = ⌊(n : ℚ) / m + 1 / 2⌋ := by
  have hm' : (0 : ℚ) < 2 * m := by positivity
  have key : (n : ℚ) / m + 1 / 2 = ((2 * n + m : Nat) : ℚ) / ((2 * m : Nat) : ℚ) := by
    push_cast
    field_simp
    ring
  rw [key, Rat.floor_natCast_div_natCast]
  rfl

/-- A match found by the search is a match of the pattern at some position. -/
theorem regexSearch_some {α : Type} (m : Option Char → List Char → Option α)
    (prev : Option Char) (s : List Char) (r : α) (h : regexSearch m prev s = some r) :
    ∃ p t, m p t = some r := by
  induction s generalizing prev with
  | nil => exact ⟨prev, [], h⟩
  | cons c t ih =>
    unfold regexSearch at h
    cases hm : m prev (c :: t) with
    | some r0 =>
      rw [hm] at h
      exact ⟨prev, c :: t, by rw [hm]; exact h⟩
    | none =>
      rw [hm] at h
      exact ih (some c) h

/-- Shape of a match of the wind group: three digits, two digits, and a gust group of two
digits when there is one. -/
theorem windAt_shape (s : List Char) (w : WindMatch) (h : windAt s = some w) :
    (∃ d1 d2 d3, w.g1 = [d1, d2, d3] ∧ isDigit d1 = true ∧ isDigit d2 = true
        ∧ isDigit d3 = true)
    ∧ (∃ s1 s2, w.g2 = [s1, s2] ∧ isDigit s1 = true ∧ isDigit s2 = true)
    ∧ (∀ g, w.g4 = some g → ∃ a b, g = [a, b] ∧ isDigit a = true ∧ isDigit b = true) := by
  unfold windAt at h
  split at h
  · rename_i d1 d2 d3 s1 s2 rest
    split at h
    · rename_i hd
      simp only [Bool.and_eq_true] at hd
      obtain ⟨⟨⟨⟨h1, h2⟩, h3⟩, h4⟩, h5⟩ := hd
      split at h
      · rename_i g hg
        unfold gustKTAt at hg
        split at hg
        · rename_i a b _
          split at hg
          · rename_i hab
            simp only [Bool.and_eq_true] at hab
            simp only [Option.some.injEq] at hg h
            subst hg
            subst h
            exact ⟨⟨d1, d2, d3, rfl, h1, h2, h3⟩, ⟨s1, s2, rfl, h4, h5⟩,
              fun g hg => ⟨a, b, by simpa using hg.symm, hab.1, hab.2⟩⟩
          · simp at hg
        · simp at hg
      · split at h
        · simp only [Option.some.injEq] at h
          subst h
          exact ⟨⟨d1, d2, d3, rfl, h1, h2, h3⟩, ⟨s1, s2, rfl, h4, h5⟩,
            fun g hg => by simp at hg⟩
        · simp at h
    · simp at h
  · simp at h

/-- The wind block computes the class from the gust when the captured gust is not zero, and
from the speed when no gust group was captured or the captured gust is zero. -/
theorem decodeWind_cls (metar : List Char) (m : WindMatch) (w : Wind)
    (hm : windMatch metar = some m) (hw : decodeWind metar = some w) :
    (∀ g, m.g4 = some g → digitsVal g ≠ 0 → w.cls = classifyWind (digitsVal g))
    ∧ (∀ g, m.g4 = some g → digitsVal g = 0 → w.cls = classifyWind (digitsVal m.g2))
    ∧ (m.g4 = none → w.cls = classifyWind (digitsVal m.g2)) := by
  unfold decodeWind at hw
  rw [hm] at hw
  simp only [Option.map_some', Option.some.injEq] at hw
  subst hw
  refine ⟨?_, ?_, ?_⟩
  · intro g hg hne
    simp [gustOf, hg, truthy, hne]
  · intro g hg h0
    simp [gustOf, hg, truthy, h0]
  · intro hg
    simp [gustOf, hg, truthy]

/-! ## Leftmost search -/

theorem charBefore_nil (prev : Option Char) : charBefore prev [] = prev := rfl

theorem charBefore_cons (prev : Option Char) (c : Char) (pre : List Char) :
    charBefore prev (c :: pre) = charBefore (some c) pre := by
  cases pre with
  | nil => rfl
  | cons a l =>
    have h : (a :: l).getLast? = some ((a :: l).getLast (by simp)) :=
      List.getLast?_eq_getLast _ _
    simp [charBefore, List.getLast?_cons_cons, h]

theorem charBefore_none (pre : List Char) : charBefore none pre = pre.getLast? := by
  unfold charBefore
  cases pre.getLast? <;> rfl

/-- The search fails exactly when the pattern matches at no position. -/
theorem regexSearch_eq_none_iff {α : Type} (m : Option Char → List Char → Option α)
    (prev : Option Char) (s : List Char) :
    regexSearch m prev s = none
      ↔ ∀ pre post, s = pre ++ post → m (charBefore prev pre) post = none := by
  induction s generalizing prev with
  | nil =>
    constructor
    · intro h pre post hs
      have hpre : pre = [] := (List.append_eq_nil.mp hs.symm).1
      have hpost : post = [] := (List.append_eq_nil.mp hs.symm).2
      subst hpre
      subst hpost
      exact h
    · intro h
      exact h [] [] rfl
  | cons c t ih =>
    unfold regexSearch
    cases hm : m prev (c :: t) with
    | some r0 =>
      simp only [reduceCtorEq, false_iff]
      intro h
      have := h [] (c :: t) rfl
      rw [charBefore_nil, hm] at this
      exact absurd this (by simp)
    | none =>
      simp only
      rw [ih (some c)]
      constructor
      · intro h pre post hs
        cases pre with
        | nil =>
          simp only [List.nil_append] at hs
          subst hs
          exact hm
        | cons a pre1 =>
          simp only [List.cons_append, List.cons.injEq] at hs
          obtain ⟨ha, ht⟩ := hs
          subst ha
          rw [charBefore_cons]
          exact h pre1 post ht
      · intro h pre post hs
        have := h (c :: pre) post (by simp [hs])
        rwa [charBefore_cons] at this

/-- The search returns the match at the leftmost position where the pattern matches. -/
theorem regexSearch_eq_some_iff {α : Type} (m : Option Char → List Char → Option α)
    (prev : Option Char) (s : List Char) (r : α) :
    regexSearch m prev s = some r
      ↔ ∃ pre post, s = pre ++ post ∧ m (charBefore prev pre) post = some r
          ∧ ∀ pre1 post1, s = pre1 ++ post1 → pre1.length < pre.length →
              m (charBefore prev pre1) post1 = none := by
  induction s generalizing prev with
  | nil =>
    constructor
    · intro h
      exact ⟨[], [], rfl, h, fun pre1 _ _ hlt => absurd hlt (Nat.not_lt_zero _)⟩
    · rintro ⟨pre, post, hs, hm, _⟩
      have hpre : pre = [] := (List.append_eq_nil.mp hs.symm).1
      have hpost : post = [] := (List.append_eq_nil.mp hs.symm).2
      subst hpre
      subst hpost
      exact hm
  | cons c t ih =>
    unfold regexSearch
    cases hm : m prev (c :: t) with
    | some r0 =>
      simp only [Option.some.injEq]
      constructor
      · intro h
        subst h
        exact ⟨[], c :: t, rfl, hm, fun pre1 _ _ hlt => absurd hlt (Nat.not_lt_zero _)⟩
      · rintro ⟨pre, post, hs, hmp, hleft⟩
        cases pre with
        | nil =>
          simp only [List.nil_append] at hs
          subst hs
          rw [charBefore_nil, hm] at hmp
          exact Option.some.inj hmp
        | cons a pre1 =>
          have := hleft [] (c :: t) rfl (by simp)
          rw [charBefore_nil, hm] at this
          exact absurd this (by simp)
    | none =>
      simp only
      rw [ih (some c)]
      constructor
      · rintro ⟨pre, post, hs, hmp, hleft⟩
        refine ⟨c :: pre, post, by simp [hs], by rwa [charBefore_cons], ?_⟩
        intro pre1 post1 hs1 hlt
        cases pre1 with
        | nil =>
          simp only [List.nil_append] at hs1
          subst hs1
          exact hm
        | cons a pre2 =>
          simp only [List.cons_append, List.cons.injEq] at hs1
          obtain ⟨ha, ht⟩ := hs1
          subst ha
          rw [charBefore_cons]
          exact hleft pre2 post1 ht (by simpa using hlt)
      · rintro ⟨pre, post, hs, hmp, hleft⟩
        cases pre with
        | nil =>
          simp only [List.nil_append] at hs
          subst hs
          rw [charBefore_nil, hm] at hmp
          exact absurd hmp (by simp)
        | cons a pre1 =>
          simp only [List.cons_append, List.cons.injEq] at hs
          obtain ⟨ha, ht⟩ := hs
          subst ha
          rw [charBefore_cons] at hmp
          refine ⟨pre1, post, ht, hmp, ?_⟩
          intro pre2 post2 hs2 hlt
          have := hleft (c :: pre2) post2 (by simp [hs2]) (by simpa using hlt)
          rwa [charBefore_cons] at this

/-! ## The visibility pattern -/

theorem wordBoundary_before_digit (p : Option Char) {d : Char} (hd : isDigit d = true) :
    wordBoundary p (some d) = !isWordAt p := by
  simp [wordBoundary, isWordAt, isWordChar_of_isDigit hd]

theorem wordBoundary_after_digit (n : Option Char) {d : Char} (hd : isDigit d = true) :
    wordBoundary (some d) n = !isWordAt n := by
  have hw : isWordAt (some d) = true := by simp [isWordAt, isWordChar_of_isDigit hd]
  unfold wordBoundary
  rw [hw]
  cases isWordAt n <;> rfl

/-- The pattern `\b(\d{4})\b` matches at a position exactly when four digits stand there
alone. -/
theorem visAt_eq_some_iff (p : Option Char) (t g : List Char) :
    visAt p t = some g
      ↔ ∃ post, t = g ++ post ∧ g.length = 4 ∧ (∀ c ∈ g, isDigit c = true)
          ∧ isWordAt p = false ∧ isWordAt post.head? = false := by
  constructor
  · intro h
    unfold visAt at h
    split at h
    · rename_i d1 d2 d3 d4 rest
      split at h
      · rename_i hc
        simp only [Bool.and_eq_true] at hc
        obtain ⟨⟨hb1, ⟨⟨⟨h1, h2⟩, h3⟩, h4⟩⟩, hb2⟩ := hc
        rw [wordBoundary_before_digit p h1] at hb1
        rw [wordBoundary_after_digit _ h4] at hb2
        simp only [Option.some.injEq] at h
        subst h
        refine ⟨rest, rfl, rfl, ?_, by simpa using hb1, by simpa using hb2⟩
        intro c hc
        simp only [List.mem_cons, List.mem_singleton, List.not_mem_nil, or_false] at hc
        rcases hc with rfl | rfl | rfl | rfl <;> assumption
      · simp at h
    · simp at h
  · rintro ⟨post, ht, hlen, hdig, hp, hn⟩
    match g, hlen with
    | [d1, d2, d3, d4], _ =>
      have h1 : isDigit d1 = true := hdig d1 (by simp)
      have h2 : isDigit d2 = true := hdig d2 (by simp)
      have h3 : isDigit d3 = true := hdig d3 (by simp)
      have h4 : isDigit d4 = true := hdig d4 (by simp)
      subst ht
      simp [visAt, wordBoundary_before_digit p h1, wordBoundary_after_digit _ h4, h1, h2,
        h3, h4, hp, hn]

/-- The visibility pattern finds the leftmost standalone run of four digits. -/
theorem visMatch_eq_some_iff (s g : List Char) :
    visMatch s = some g
      ↔ ∃ pre post, s = pre ++ g ++ post ∧ StandaloneFourDigits pre g post
          ∧ ∀ pre1 g1 post1, s = pre1 ++ g1 ++ post1 → StandaloneFourDigits pre1 g1 post1 →
              pre.length ≤ pre1.length := by
  unfold visMatch
  rw [regexSearch_eq_some_iff]
  constructor
  · rintro ⟨pre, post0, hs, hm, hleft⟩
    rw [charBefore_none, visAt_eq_some_iff] at hm
    obtain ⟨post, hpost, hlen, hdig, hp, hn⟩ := hm
    refine ⟨pre, post, by rw [hs, hpost, List.append_assoc], ⟨hlen, hdig, hp, hn⟩, ?_⟩
    intro pre1 g1 post1 hs1 hst
    by_contra hlt
    have hnone := hleft pre1 (g1 ++ post1) (by rw [hs1, List.append_assoc]) (by omega)
    have hsome : visAt (charBefore none pre1) (g1 ++ post1) = some g1 := by
      rw [charBefore_none, visAt_eq_some_iff]
      exact ⟨post1, rfl, hst.1, hst.2.1, hst.2.2.1, hst.2.2.2⟩
    rw [hsome] at hnone
    exact absurd hnone (by simp)
  · rintro ⟨pre, post, hs, hst, hleft⟩
    refine ⟨pre, g ++ post, by rw [hs, List.append_assoc], ?_, ?_⟩
    · rw [charBefore_none, visAt_eq_some_iff]
      exact ⟨post, rfl, hst.1, hst.2.1, hst.2.2.1, hst.2.2.2⟩
    · intro pre1 post1 hs1 hlt
      cases hv : visAt (charBefore none pre1) post1 with
      | none => rfl
      | some g1 =>
        rw [charBefore_none, visAt_eq_some_iff] at hv
        obtain ⟨post2, hpost2, hlen, hdig, hp, hn⟩ := hv
        have := hleft pre1 g1 post2 (by rw [hs1, hpost2, List.append_assoc])
          ⟨hlen, hdig, hp, hn⟩
        omega

/-- The visibility pattern fails exactly when no run of four digits stands alone. -/
theorem visMatch_eq_none_iff (s : List Char) :
    visMatch s = none
      ↔ ¬ ∃ pre g post, s = pre ++ g ++ post ∧ StandaloneFourDigits pre g post := by
  unfold visMatch
  rw [regexSearch_eq_none_iff]
  constructor
  · rintro h ⟨pre, g, post, hs, hst⟩
    have hnone := h pre (g ++ post) (by rw [hs, List.append_assoc])
    have hsome : visAt (charBefore none pre) (g ++ post) = some g := by
      rw [charBefore_none, visAt_eq_some_iff]
      exact ⟨post, rfl, hst.1, hst.2.1, hst.2.2.1, hst.2.2.2⟩
    rw [hsome] at hnone
    exact absurd hnone (by simp)
  · intro h pre post hs
    cases hv : visAt (charBefore none pre) post with
    | none => rfl
    | some g =>
      rw [charBefore_none, visAt_eq_some_iff] at hv
      obtain ⟨post2, hpost2, hlen, hdig, hp, hn⟩ := hv
      exact absurd ⟨pre, g, post2, by rw [hs, hpost2, List.append_assoc], hlen, hdig, hp, hn⟩ h

/-- The guard on the empty string does not change the visibility field: the pattern does
not match the empty string. -/
theorem decodeMetar_visibility (s : List Char) :
    (decodeMetar s).visibility = decodeVisibility s := by
  unfold decodeMetar
  split
  · rename_i h
    subst h
    rfl
  · rfl

/-! ## The weather tests -/

/-- The method `includes` decides whether the pattern is a contiguous part of the text. -/
theorem includes_iff (s pat : List Char) : includes s pat = true ↔ pat <:+: s := by
  induction s with
  | nil => simp [includes]
  | cons c t ih =>
    unfold includes
    rw [Bool.or_eq_true, ih, List.infix_cons_iff, List.isPrefixOf_iff_prefix]

theorem bareRAAt_eq_some_iff (p : Option Char) (t : List Char) :
    bareRAAt p t = some ()
      ↔ ∃ post, t = 'R' :: 'A' :: post ∧ isWordAt p = false
          ∧ isWordAt post.head? = false := by
  have hR : isWordAt (some 'R') = true := by decide
  have hA : isWordAt (some 'A') = true := by decide
  constructor
  · intro h
    unfold bareRAAt at h
    split at h
    · rename_i rest
      split at h
      · rename_i hc
        simp only [Bool.and_eq_true, wordBoundary, hR, hA] at hc
        refine ⟨rest, rfl, ?_, ?_⟩
        · cases hp : isWordAt p
          · rfl
          · rw [hp] at hc
            exact absurd hc.1 (by decide)
        · cases hn : isWordAt rest.head?
          · rfl
          · rw [hn] at hc
            exact absurd hc.2 (by decide)
      · simp at h
    · simp at h
  · rintro ⟨post, ht, hp, hn⟩
    subst ht
    simp [bareRAAt, wordBoundary, hR, hA, hp, hn]

/-- The test `/\bRA\b/.test(metar)` succeeds exactly when `RA` stands alone in the text. -/
theorem bareRA_test_iff (s : List Char) :
    (regexSearch bareRAAt none s).isSome = true ↔ BareRA s := by
  rw [← Option.ne_none_iff_isSome, Ne, regexSearch_eq_none_iff]
  constructor
  · intro h
    by_contra hb
    apply h
    intro pre post hs
    cases hv : bareRAAt (charBefore none pre) post with
    | none => rfl
    | some u =>
      cases u
      rw [charBefore_none, bareRAAt_eq_some_iff] at hv
      obtain ⟨post2, hpost2, hp, hn⟩ := hv
      exact absurd ⟨pre, post2, by rw [hs, hpost2], hp, hn⟩ hb
  · rintro ⟨pre, post, hs, hp, hn⟩ h
    have hnone := h pre ('R' :: 'A' :: post) hs
    have hsome : bareRAAt (charBefore none pre) ('R' :: 'A' :: post) = some () := by
      rw [charBefore_none, bareRAAt_eq_some_iff]
      exact ⟨post, rfl, hp, hn⟩
    rw [hsome] at hnone
    exact absurd hnone (by simp)

/-- The guard on the empty string does not change the weather field: the weather list of
the empty string is empty. -/
theorem decodeMetar_weatherHtml (s : List Char) :
    (decodeMetar s).weatherHtml
      = if weatherList s = [] then none else some (weatherList s) := by
  unfold decodeMetar
  split
  · rename_i h
    subst h
    rfl
  · by_cases hw : weatherList s = []
    · simp [hw]
    · simp [hw]

/-! ## The cloud layers -/

theorem coverageCodes_no_digit (a b c : Char)
    (h : isDigit a = true ∨ isDigit b = true ∨ isDigit c = true) :
    coverageCodes.contains [a, b, c] = false := by
  cases hc : coverageCodes.contains [a, b, c] with
  | false => rfl
  | true =>
    exfalso
    simp only [coverageCodes, List.contains_eq_any_beq, List.any_cons, List.any_nil,
      Bool.or_false, Bool.or_eq_true, beq_iff_eq, List.cons.injEq, and_true] at hc
    rcases hc with ⟨rfl, rfl, rfl⟩ | ⟨rfl, rfl, rfl⟩ | ⟨rfl, rfl, rfl⟩ | ⟨rfl, rfl, rfl⟩
      <;> revert h <;> decide

/-- The cloud pattern does not match where one of the first three characters is a digit. -/
theorem cloudAt_eq_none_of_digit (s : List Char)
    (h : ∃ a ∈ s.take 3, isDigit a = true) : cloudAt s = none := by
  unfold cloudAt
  split
  · rename_i c1 c2 c3 d1 d2 d3 rest
    obtain ⟨a, ha, hd⟩ := h
    simp only [List.take_succ_cons, List.take_zero, List.mem_cons, List.not_mem_nil,
      or_false] at ha
    have hno : coverageCodes.contains [c1, c2, c3] = false := by
      apply coverageCodes_no_digit
      rcases ha with rfl | rfl | rfl
      · exact Or.inl hd
      · exact Or.inr (Or.inl hd)
      · exact Or.inr (Or.inr hd)
    rw [hno]
    rfl
  · rfl

/-- Shape of a match of the cloud pattern. -/
theorem cloudAt_shape (s : List Char) (m : List Char × List Char) (h : cloudAt s = some m) :
    ∃ c1 c2 c3 d1 d2 d3 rest, s = c1 :: c2 :: c3 :: d1 :: d2 :: d3 :: rest
      ∧ m = ([c1, c2, c3], [d1, d2, d3]) ∧ coverageCodes.contains [c1, c2, c3] = true
      ∧ isDigit d1 = true ∧ isDigit d2 = true ∧ isDigit d3 = true := by
  unfold cloudAt at h
  split at h
  · rename_i c1 c2 c3 d1 d2 d3 rest
    split at h
    · rename_i hc
      simp only [Bool.and_eq_true] at hc
      simp only [Option.some.injEq] at h
      exact ⟨c1, c2, c3, d1, d2, d3, rest, rfl, h.symm, hc.1, hc.2.1.1, hc.2.1.2, hc.2.2⟩
    · simp at h
  · simp at h

/-- Matches of the cloud pattern do not overlap: after a match, the pattern matches at none
of the next five positions. -/
theorem cloudAt_no_overlap (c : Char) (t : List Char) (m : List Char × List Char)
    (h : cloudAt (c :: t) = some m) (k : Nat) (hk : k ≤ 4) : cloudAt (t.drop k) = none := by
  obtain ⟨c1, c2, c3, d1, d2, d3, rest, hs, _, _, h1, h2, h3⟩ := cloudAt_shape _ _ h
  simp only [List.cons.injEq] at hs
  obtain ⟨_, ht⟩ := hs
  subst ht
  apply cloudAt_eq_none_of_digit
  interval_cases k
  · exact ⟨d1, by simp, h1⟩
  · exact ⟨d1, by simp, h1⟩
  · exact ⟨d1, by simp, h1⟩
  · exact ⟨d2, by simp, h2⟩
  · exact ⟨d3, by simp, h3⟩

theorem cloudMatchesEverywhere_drop (t : List Char) (k : Nat)
    (h : ∀ j, j < k → cloudAt (t.drop j) = none) :
    cloudMatchesEverywhere t = cloudMatchesEverywhere (t.drop k) := by
  induction k generalizing t with
  | zero => rfl
  | succ k ih =>
    cases t with
    | nil => rfl
    | cons a l =>
      have h0 : cloudAt (a :: l) = none := h 0 (Nat.succ_pos k)
      have hl : ∀ j, j < k → cloudAt (l.drop j) = none := by
        intro j hj
        have := h (j + 1) (by omega)
        simpa using this
      simp only [cloudMatchesEverywhere, h0, Option.toList, List.nil_append, List.drop_succ_cons]
      exact ih l hl

theorem cloudScan_skip (k : Nat) (s : List Char) : cloudScan k s = cloudScan 0 (s.drop k) := by
  induction k generalizing s with
  | zero => rfl
  | succ k ih =>
    cases s with
    | nil => simp [cloudScan]
    | cons c t =>
      simp only [cloudScan, List.drop_succ_cons]
      exact ih t

/-- The scan of `matchAll` finds every match of the pattern: resuming after a match skips
no match. -/
theorem cloudScan_eq_everywhere (s : List Char) :
    cloudScan 0 s = cloudMatchesEverywhere s := by
  suffices hn : ∀ n (s : List Char), s.length ≤ n → cloudScan 0 s = cloudMatchesEverywhere s
    from hn s.length s (Nat.le_refl _)
  intro n
  induction n with
  | zero =>
    intro s hs
    have : s = [] := List.length_eq_zero.mp (Nat.le_zero.mp hs)
    subst this
    rfl
  | succ n ih =>
    intro s hs
    cases s with
    | nil => rfl
    | cons c t =>
      have ht : t.length ≤ n := by simpa using hs
      unfold cloudScan
      cases hm : cloudAt (c :: t) with
      | none =>
        simp only [cloudMatchesEverywhere, hm, Option.toList, List.nil_append]
        exact ih t ht
      | some m =>
        simp only [cloudMatchesEverywhere, hm, Option.toList, List.singleton_append,
          List.cons.injEq, true_and]
        rw [cloudScan_skip, ih (t.drop 5) (by simp; omega)]
        exact (cloudMatchesEverywhere_drop t 5
          (fun j hj => cloudAt_no_overlap c t m hm j (by omega))).symm

/-- At the start of the text, the pattern and its mapping give the layer of the
specification. -/
theorem cloudLayerAt_zero (s : List Char) :
    cloudLayerAt s 0 = (cloudAt s).map cloudLayer := by
  have hF : "FEW".toList = ['F', 'E', 'W'] := rfl
  have hS : "SCT".toList = ['S', 'C', 'T'] := rfl
  have hB : "BKN".toList = ['B', 'K', 'N'] := rfl
  have hO : "OVC".toList = ['O', 'V', 'C'] := rfl
  match s with
  | [] => rfl
  | [_] => rfl
  | [_, _] => rfl
  | [_, _, _] => rfl
  | [_, _, _, _] => rfl
  | [_, _, _, _, _] => rfl
  | c1 :: c2 :: c3 :: d1 :: d2 :: d3 :: rest =>
    simp only [cloudLayerAt, cloudAt, List.drop_zero, List.take_succ_cons, List.take_zero,
      Nat.zero_add, List.drop_succ_cons, List.length_cons, List.length_nil, allDigits,
      List.all_cons, List.all_nil, Bool.and_true, true_and, hF, hS, hB, hO]
    by_cases hd : (isDigit d1 && (isDigit d2 && isDigit d3)) = true
    · have hd' : (isDigit d1 && isDigit d2 && isDigit d3) = true := by
        simpa [Bool.and_assoc] using hd
      rw [if_pos hd, hd', Bool.and_true]
      by_cases h1 : [c1, c2, c3] = ['F', 'E', 'W']
      · rw [h1]
        simp [coverageCodes, cloudLayer, coverageName, Nat.mul_comm]
      · by_cases h2 : [c1, c2, c3] = ['S', 'C', 'T']
        · rw [h2]
          simp [coverageCodes, cloudLayer, coverageName, Nat.mul_comm]
        · by_cases h3 : [c1, c2, c3] = ['B', 'K', 'N']
          · rw [h3]
            simp [coverageCodes, cloudLayer, coverageName, Nat.mul_comm]
          · by_cases h4 : [c1, c2, c3] = ['O', 'V', 'C']
            · rw [h4]
              simp [coverageCodes, cloudLayer, coverageName, Nat.mul_comm]
            · have hno : coverageCodes.contains [c1, c2, c3] = false := by
                simp only [coverageCodes, List.contains_eq_any_beq, List.any_cons,
                  List.any_nil, Bool.or_false, Bool.or_eq_false_iff, beq_eq_false_iff_ne]
                exact ⟨h1, h2, h3, h4⟩
              rw [if_neg h1, if_neg h2, if_neg h3, if_neg h4, hno]
              rfl
    · have hd' : (isDigit d1 && isDigit d2 && isDigit d3) = false := by
        simpa [Bool.and_assoc] using hd
      rw [if_neg hd, hd', Bool.and_false]
      rfl

theorem cloudLayerAt_cons (c : Char) (t : List Char) (i : Nat) :
    cloudLayerAt (c :: t) (i + 1) = cloudLayerAt t i := by
  have h : i + 1 + 3 = (i + 3) + 1 := by omega
  simp only [cloudLayerAt, h, List.drop_succ_cons]

/-- The layer at position `i` is the match of the pattern at that position, mapped. -/
theorem cloudLayerAt_eq (s : List Char) (i : Nat) :
    cloudLayerAt s i = (cloudAt (s.drop i)).map cloudLayer := by
  induction i generalizing s with
  | zero => exact cloudLayerAt_zero s
  | succ i ih =>
    cases s with
    | nil => rfl
    | cons c t => rw [cloudLayerAt_cons, List.drop_succ_cons, ih]

theorem cloudMatchesEverywhere_map (s : List Char) :
    (cloudMatchesEverywhere s).map cloudLayer = cloudLayersOf s := by
  induction s with
  | nil => rfl
  | cons c t ih =>
    have hr : List.range (t.length + 1) = 0 :: (List.range t.length).map Nat.succ :=
      List.range_succ_eq_map t.length
    have hf : (cloudLayerAt (c :: t)) ∘ Nat.succ = cloudLayerAt t := by
      funext i
      exact cloudLayerAt_cons c t i
    unfold cloudLayersOf at ih ⊢
    rw [List.length_cons, hr, List.filterMap_cons, List.filterMap_map, hf, ← ih,
      cloudLayerAt_zero, cloudMatchesEverywhere]
    cases cloudAt (c :: t) <;> simp

/-- The mapped matches of `matchAll` are the layers of the text. -/
theorem cloudMatches_map (s : List Char) :
    (cloudMatches s).map cloudLayer = cloudLayersOf s := by
  unfold cloudMatches
  rw [cloudScan_eq_everywhere, cloudMatchesEverywhere_map]

/-- The guard on the empty string does not change the clouds field: the empty string has no
cloud match and does not contain `NCD`. -/
theorem decodeMetar_cloudsHtml (s : List Char) :
    (decodeMetar s).cloudsHtml = decodeClouds s := by
  unfold decodeMetar
  split
  · rename_i h
    subst h
    rfl
  · rfl

/-! ## Leftmost search of a pattern that does not look behind -/

/-- The search of a pattern that is described by `P` returns its leftmost occurrence. -/
theorem search_eq_some_iff {α : Type} (m : List Char → Option α)
    (P : List Char → α → Prop) (hP : ∀ t r, m t = some r ↔ P t r) (s : List Char) (r : α) :
    regexSearch (fun _ t => m t) none s = some r ↔ ∃ pre, LeftmostAt P s pre r := by
  rw [regexSearch_eq_some_iff]
  constructor
  · rintro ⟨pre, post, hs, hm, hleft⟩
    refine ⟨pre, ⟨post, hs, (hP _ _).mp hm⟩, ?_⟩
    rintro pre1 r1 ⟨post1, hs1, hp1⟩
    by_contra hlt
    have hnone := hleft pre1 post1 hs1 (by omega)
    rw [(hP _ _).mpr hp1] at hnone
    exact absurd hnone (by simp)
  · rintro ⟨pre, ⟨post, hs, hp⟩, hleft⟩
    refine ⟨pre, post, hs, (hP _ _).mpr hp, ?_⟩
    intro pre1 post1 hs1 hlt
    cases hv : m post1 with
    | none => rfl
    | some r1 =>
      have := hleft pre1 r1 ⟨post1, hs1, (hP _ _).mp hv⟩
      omega

/-- The search of a pattern that is described by `P` fails exactly when the pattern occurs
nowhere. -/
theorem search_eq_none_iff {α : Type} (m : List Char → Option α)
    (P : List Char → α → Prop) (hP : ∀ t r, m t = some r ↔ P t r) (s : List Char) :
    regexSearch (fun _ t => m t) none s = none ↔ ¬ ∃ pre r, OccursAt P s pre r := by
  rw [regexSearch_eq_none_iff]
  constructor
  · rintro h ⟨pre, r, post, hs, hp⟩
    have hnone := h pre post hs
    rw [(hP _ _).mpr hp] at hnone
    exact absurd hnone (by simp)
  · intro h pre post hs
    cases hv : m post with
    | none => rfl
    | some r => exact absurd ⟨pre, r, post, hs, (hP _ _).mp hv⟩ h

/-! ## The pressure pattern -/

theorem qnhAt_eq_some_iff (t g : List Char) : qnhAt t = some g ↔ QnhStarts t g := by
  constructor
  · intro h
    unfold qnhAt at h
    split at h
    · rename_i d1 d2 d3 d4 rest
      split at h
      · rename_i hc
        simp only [Bool.and_eq_true] at hc
        obtain ⟨⟨⟨h1, h2⟩, h3⟩, h4⟩ := hc
        simp only [Option.some.injEq] at h
        subst h
        refine ⟨rest, rfl, rfl, ?_⟩
        intro c hc
        simp only [List.mem_cons, List.mem_singleton, List.not_mem_nil, or_false] at hc
        rcases hc with rfl | rfl | rfl | rfl <;> assumption
      · simp at h
    · simp at h
  · rintro ⟨post, ht, hlen, hdig⟩
    match g, hlen with
    | [d1, d2, d3, d4], _ =>
      have h1 : isDigit d1 = true := hdig d1 (by simp)
      have h2 : isDigit d2 = true := hdig d2 (by simp)
      have h3 : isDigit d3 = true := hdig d3 (by simp)
      have h4 : isDigit d4 = true := hdig d4 (by simp)
      subst ht
      simp [qnhAt, h1, h2, h3, h4]

/-- The guard on the empty string does not change the pressure field: the pattern does not
match the empty string. -/
theorem decodeMetar_qnhValue (s : List Char) : (decodeMetar s).qnhValue = decodeQnh s := by
  unfold decodeMetar
  split
  · rename_i h
    subst h
    rfl
  · rfl

/-! ## The temperature pattern -/

theorem isDigit_M : isDigit 'M' = false := by decide

theorem signedPairAt_eq_some_iff (s t r : List Char) :
    signedPairAt s = some (t, r) ↔ IsSignedTwoDigits t ∧ s = t ++ r := by
  constructor
  · intro h
    unfold signedPairAt at h
    split at h
    · rename_i d1 d2 rest
      split at h
      · rename_i hc
        simp only [Bool.and_eq_true] at hc
        simp only [Option.some.injEq, Prod.mk.injEq] at h
        obtain ⟨ht, hr⟩ := h
        subst ht
        subst hr
        exact ⟨⟨d1, d2, hc.1, hc.2, Or.inr rfl⟩, rfl⟩
      · simp at h
    · rename_i d1 d2 rest _
      split at h
      · rename_i hc
        simp only [Bool.and_eq_true] at hc
        simp only [Option.some.injEq, Prod.mk.injEq] at h
        obtain ⟨ht, hr⟩ := h
        subst ht
        subst hr
        exact ⟨⟨d1, d2, hc.1, hc.2, Or.inl rfl⟩, rfl⟩
      · simp at h
    · simp at h
  · rintro ⟨⟨d1, d2, h1, h2, ht | ht⟩, hs⟩
    · subst ht
      subst hs
      have hne : d1 ≠ 'M' := by
        intro he
        rw [he, isDigit_M] at h1
        exact absurd h1 (by simp)
      unfold signedPairAt
      split
      · rename_i a b rest heq
        simp only [List.cons_append, List.nil_append, List.cons.injEq] at heq
        exact absurd heq.1 hne
      · rename_i a b rest _ heq
        simp only [List.cons_append, List.nil_append, List.cons.injEq] at heq
        obtain ⟨ha, hb, hrest⟩ := heq
        subst ha
        subst hb
        subst hrest
        simp [h1, h2]
      · rename_i hno1 hno2
        exact absurd rfl (hno2 d1 d2 r)
    · subst ht
      subst hs
      simp [signedPairAt, h1, h2]

theorem tempAt_eq_some_iff (t : List Char) (r : List Char × List Char) :
    tempAt t = some r ↔ TempPairStarts t r := by
  constructor
  · intro h
    unfold tempAt at h
    split at h
    · rename_i r0
      split at h
      · rename_i t1 r1 h1
        split at h
        · rename_i t2 post h2
          simp only [Option.some.injEq] at h
          subst h
          rw [signedPairAt_eq_some_iff] at h1 h2
          refine ⟨post, ?_, h1.1, h2.1⟩
          rw [h1.2, h2.2]
          simp
        · simp at h
      · simp at h
    · simp at h
  · rintro ⟨post, ht, hs1, hs2⟩
    obtain ⟨t1, t2⟩ := r
    simp only at ht hs1 hs2
    have h2 : signedPairAt (t2 ++ ' ' :: post) = some (t2, ' ' :: post) :=
      (signedPairAt_eq_some_iff _ _ _).mpr ⟨hs2, rfl⟩
    have h1 : signedPairAt (t1 ++ '/' :: (t2 ++ ' ' :: post))
        = some (t1, '/' :: (t2 ++ ' ' :: post)) :=
      (signedPairAt_eq_some_iff _ _ _).mpr ⟨hs1, rfl⟩
    have ht' : t = ' ' :: (t1 ++ '/' :: (t2 ++ ' ' :: post)) := by
      rw [ht]
      simp
    rw [ht']
    simp only [tempAt, h1, h2]

/-- The guard on the empty string does not change the temperature field: the pattern does
not match the empty string. -/
theorem decodeMetar_temperature (s : List Char) :
    (decodeMetar s).temperature = decodeTemperature s := by
  unfold decodeMetar
  split
  · rename_i h
    subst h
    rfl
  · rfl

/-- The function `parseTemp` on a side of the temperature pair: the value of the two digits,
negated when the side starts with `M`. -/
theorem parseTemp_two_digits (d1 d2 : Char) (h1 : isDigit d1 = true) (h2 : isDigit d2 = true) :
    parseTemp [d1, d2] = some ((digitsVal [d1, d2] : Nat) : Int)
    ∧ parseTemp ['M', d1, d2] = some (-((digitsVal [d1, d2] : Nat) : Int)) := by
  have hne : d1 ≠ 'M' := by
    intro he
    rw [he, isDigit_M] at h1
    exact absurd h1 (by simp)
  constructor
  · unfold parseTemp
    split
    · rename_i rest heq
      simp only [List.cons.injEq] at heq
      exact absurd heq.1 hne
    · simp [toNumber, allDigits, h1, h2]
  · simp [parseTemp, parseInt, List.takeWhile, h1, h2]

/-! ## The wind group and the station pattern -/

theorem isSpace_of_isDigit {c : Char} (h : isDigit c = true) : isSpace c = false := by
  rw [isDigit_iff] at h
  cases hs : isSpace c with
  | false => rfl
  | true =>
    exfalso
    simp only [isSpace, Bool.or_eq_true, Bool.and_eq_true, decide_eq_true_eq] at hs
    omega

/-- The wind pattern matches at the start of a text exactly when the text starts with a wind
group. -/
theorem windAt_eq_some_iff (t : List Char) (w : WindMatch) :
    windAt t = some w ↔ WindGroupStarts t w := by
  constructor
  · intro h
    unfold windAt at h
    split at h
    · rename_i d1 d2 d3 s1 s2 rest
      split at h
      · rename_i hd
        simp only [Bool.and_eq_true] at hd
        obtain ⟨⟨⟨⟨h1, h2⟩, h3⟩, h4⟩, h5⟩ := hd
        have hg1 : ∀ c ∈ [d1, d2, d3], isDigit c = true := by
          intro c hc
          simp only [List.mem_cons, List.mem_singleton, List.not_mem_nil, or_false] at hc
          rcases hc with rfl | rfl | rfl <;> assumption
        have hg2 : ∀ c ∈ [s1, s2], isDigit c = true := by
          intro c hc
          simp only [List.mem_cons, List.mem_singleton, List.not_mem_nil, or_false] at hc
          rcases hc with rfl | rfl <;> assumption
        split at h
        · rename_i g hg
          unfold gustKTAt at hg
          split at hg
          · rename_i a b post
            split at hg
            · rename_i hab
              simp only [Bool.and_eq_true] at hab
              simp only [Option.some.injEq] at hg h
              subst hg
              subst h
              refine ⟨[d1, d2, d3] ++ [s1, s2] ++ 'G' :: [a, b] ++ ['K', 'T'], post, by simp,
                rfl, hg1, rfl, hg2, Or.inr ⟨[a, b], rfl, rfl, ?_, rfl⟩⟩
              intro c hc
              simp only [List.mem_cons, List.mem_singleton, List.not_mem_nil, or_false] at hc
              rcases hc with rfl | rfl
              · exact hab.1
              · exact hab.2
            · simp at hg
          · simp at hg
        · split at h
          · rename_i post _
            simp only [Option.some.injEq] at h
            subst h
            exact ⟨[d1, d2, d3] ++ [s1, s2] ++ ['K', 'T'], post, by simp, rfl, hg1, rfl, hg2,
              Or.inl ⟨rfl, rfl⟩⟩
          · simp at h
      · simp at h
    · simp at h
  · rintro ⟨g, post, ht, hl1, hd1, hl2, hd2, hg⟩
    obtain ⟨g1, g2, g4⟩ := w
    simp only at hl1 hd1 hl2 hd2 hg
    match g1, hl1, g2, hl2 with
    | [d1, d2, d3], _, [s1, s2], _ =>
      have h1 : isDigit d1 = true := hd1 d1 (by simp)
      have h2 : isDigit d2 = true := hd1 d2 (by simp)
      have h3 : isDigit d3 = true := hd1 d3 (by simp)
      have h4 : isDigit s1 = true := hd2 s1 (by simp)
      have h5 : isDigit s2 = true := hd2 s2 (by simp)
      rcases hg with ⟨hnone, hgeq⟩ | ⟨gg, hsome, hlen, hdg, hgeq⟩
      · subst hnone
        subst hgeq
        subst ht
        simp [windAt, gustKTAt, h1, h2, h3, h4, h5]
      · subst hsome
        subst hgeq
        subst ht
        match gg, hlen with
        | [a, b], _ =>
          have ha : isDigit a = true := hdg a (by simp)
          have hb : isDigit b = true := hdg b (by simp)
          simp [windAt, gustKTAt, h1, h2, h3, h4, h5, ha, hb]

theorem dropWhile_append_of_all (p : Char → Bool) (ws r : List Char)
    (h : ∀ c ∈ ws, p c = true) : (ws ++ r).dropWhile p = r.dropWhile p := by
  induction ws with
  | nil => rfl
  | cons a l ih =>
    have ha : p a = true := h a (by simp)
    have hl : ∀ c ∈ l, p c = true := fun c hc => h c (by simp [hc])
    simp [List.dropWhile, ha, ih hl]

theorem takeWhile_all (p : Char → Bool) (l : List Char) : ∀ c ∈ l.takeWhile p, p c = true := by
  induction l with
  | nil => simp
  | cons a l ih =>
    intro c hc
    by_cases ha : p a = true
    · simp only [List.takeWhile, ha, List.mem_cons] at hc
      rcases hc with rfl | hc
      · exact ha
      · exact ih c hc
    · simp [List.takeWhile, ha] at hc

/-- A text that starts with a wind group starts with a digit, which is not white space. -/
theorem windGroupStarts_dropWhile (t : List Char) (w : WindMatch) (h : WindGroupStarts t w) :
    t.dropWhile isSpace = t := by
  obtain ⟨g, post, ht, hl1, hd1, _, _, hg⟩ := h
  obtain ⟨g1, g2, g4⟩ := w
  simp only at hl1 hd1 hg
  match g1, hl1 with
  | [d1, d2, d3], _ =>
    have h1 : isSpace d1 = false := isSpace_of_isDigit (hd1 d1 (by simp))
    rcases hg with ⟨_, hgeq⟩ | ⟨gg, _, _, _, hgeq⟩
    · subst hgeq
      subst ht
      simp [List.dropWhile, h1]
    · subst hgeq
      subst ht
      simp [List.dropWhile, h1]

/-- The station pattern matches at the start of a text exactly when the text starts with
`KAUKAU`, white space and a wind group; the white space it takes is `ws`. -/
theorem kaukauAt_eq_some_iff (t : List Char) (w : WindMatch) :
    kaukauAt t = some w ↔ ∃ ws, StationGroupStarts t (ws, w) := by
  have hK : "KAUKAU".toList = ['K', 'A', 'U', 'K', 'A', 'U'] := rfl
  constructor
  · intro h
    unfold kaukauAt at h
    split at h
    · rename_i c rest
      split at h
      · rename_i hc
        rw [windAt_eq_some_iff] at h
        obtain ⟨g, post, hgp, hwg⟩ := h
        refine ⟨c :: rest.takeWhile isSpace, g, post, ?_, by simp, ?_, hwg⟩
        · rw [hK]
          simp only [List.cons_append, List.nil_append, List.append_assoc, List.cons.injEq,
            true_and]
          rw [← hgp, List.takeWhile_append_dropWhile]
        · intro x hx
          simp only [List.mem_cons] at hx
          rcases hx with rfl | hx
          · exact hc
          · exact takeWhile_all isSpace rest x hx
      · simp at h
    · simp at h
  · rintro ⟨ws, g, post, ht, hne, hws, hwg⟩
    simp only at ht hne hws hwg
    cases ws with
    | nil => exact absurd rfl hne
    | cons c ws1 =>
      have hc : isSpace c = true := hws c (by simp)
      have hws1 : ∀ x ∈ ws1, isSpace x = true := fun x hx => hws x (by simp [hx])
      have hstart : WindGroupStarts (g ++ post) w := ⟨g, post, rfl, hwg⟩
      have hdrop : (ws1 ++ (g ++ post)).dropWhile isSpace = g ++ post := by
        rw [dropWhile_append_of_all isSpace ws1 _ hws1, windGroupStarts_dropWhile _ w hstart]
      have ht' : t = 'K' :: 'A' :: 'U' :: 'K' :: 'A' :: 'U' :: c :: (ws1 ++ (g ++ post)) := by
        rw [ht, hK]
        simp
      rw [ht']
      simp only [kaukauAt, hc, if_true, hdrop]
      exact (windAt_eq_some_iff _ _).mpr hstart

theorem decodeMetar_wind (s : List Char) : (decodeMetar s).wind = decodeWind s := by
  unfold decodeMetar
  split
  · rename_i h
    subst h
    rfl
  · rfl

theorem decodeMetar_kaukau (s : List Char) : (decodeMetar s).kaukau = decodeKaukau s := by
  unfold decodeMetar
  split
  · rename_i h
    subst h
    rfl
  · rfl

theorem kaukauAt_eq_some_iff_starts (t : List Char) (w : WindMatch) :
    kaukauAt t = some w ↔ StationStarts t w :=
  kaukauAt_eq_some_iff t w

/-- The matches of the cloud pattern are none exactly when the text shows no layer. -/
theorem cloudMatches_length_eq_zero_iff (s : List Char) :
    (cloudMatches s).length = 0 ↔ cloudLayersOf s = [] := by
  rw [← cloudMatches_map, List.map_eq_nil_iff, List.length_eq_zero]

/-- The seven rules find nothing exactly when the seven tests of the decoder fail. -/
theorem noRuleMatches_iff (s : List Char) :
    NoRuleMatches s
      ↔ windMatch s = none ∧ visMatch s = none
        ∧ (includes s "-RA".toList = false ∧ includes s "+RA".toList = false
            ∧ (regexSearch bareRAAt none s).isSome = false
            ∧ includes s "RERA".toList = false)
        ∧ ((cloudMatches s).length = 0 ∧ includes s "NCD".toList = false)
        ∧ regexSearch (fun _ t => tempAt t) none s = none
        ∧ regexSearch (fun _ t => qnhAt t) none s = none
        ∧ regexSearch (fun _ t => kaukauAt t) none s = none := by
  unfold NoRuleMatches windMatch
  rw [search_eq_none_iff windAt WindGroupStarts windAt_eq_some_iff,
    visMatch_eq_none_iff,
    search_eq_none_iff tempAt TempPairStarts tempAt_eq_some_iff,
    search_eq_none_iff qnhAt QnhStarts qnhAt_eq_some_iff,
    search_eq_none_iff kaukauAt StationStarts kaukauAt_eq_some_iff_starts,
    cloudMatches_length_eq_zero_iff,
    ← includes_iff, ← includes_iff, ← includes_iff, ← includes_iff, ← bareRA_test_iff]
  simp only [Bool.not_eq_true]

/-! ## Report time -/

theorem monthStarts_bounds (i : Nat) :
    0 ≤ monthStarts.getD i 0 ∧ monthStarts.getD i 0 ≤ 334 := by
  by_cases h : i < 12
  · interval_cases i <;> decide
  · rw [List.getD_eq_default _ _ (by simpa [monthStarts] using h)]
    decide

theorem daysBeforeMonth_bounds (leap : Bool) (mn : Int) :
    0 ≤ daysBeforeMonth leap mn ∧ daysBeforeMonth leap mn ≤ 335 := by
  have hb := monthStarts_bounds mn.toNat
  unfold daysBeforeMonth
  split <;> omega

/-- The table of the months is that of a calendar: a month starts where the month before it
ends. -/
theorem daysBeforeMonth_succ (y mn : Int) (h0 : 0 ≤ mn) (h1 : mn ≤ 10) :
    daysBeforeMonth (isLeapYear y) (mn + 1)
      = daysBeforeMonth (isLeapYear y) mn + daysInMonth y mn := by
  have hcases : mn = 0 ∨ mn = 1 ∨ mn = 2 ∨ mn = 3 ∨ mn = 4 ∨ mn = 5 ∨ mn = 6 ∨ mn = 7
      ∨ mn = 8 ∨ mn = 9 ∨ mn = 10 := by omega
  unfold daysInMonth
  generalize isLeapYear y = l
  rcases hcases with h | h | h | h | h | h | h | h | h | h | h <;> subst h
    <;> cases l <;> decide

/-- The day numbers of the years are those of a calendar: a year starts 365 days after the
year before it, 366 days when that year is a leap year. -/
theorem dayFromYear_succ (y : Int) :
    dayFromYear (y + 1) = dayFromYear y + (if isLeapYear y = true then 366 else 365) := by
  unfold dayFromYear isLeapYear
  split <;> rename_i h <;> simp at h <;> omega

theorem daysInMonth_le (y mn : Int) : daysInMonth y mn ≤ 31 := by
  unfold daysInMonth
  split_ifs <;> omega

theorem dayFromYear_mono (a b : Int) (h : a ≤ b) : dayFromYear a ≤ dayFromYear b := by
  unfold dayFromYear
  omega

/-- The day of the year of a calendar date, and the month and the day it determines. -/
theorem dayOfYear_table (y mn d : Int) (h0 : 0 ≤ mn) (h1 : mn ≤ 11) (hd1 : 1 ≤ d)
    (hd2 : d ≤ daysInMonth y mn) :
    0 ≤ daysBeforeMonth (isLeapYear y) mn + (d - 1)
    ∧ daysBeforeMonth (isLeapYear y) mn + (d - 1)
        < (if isLeapYear y = true then 366 else 365)
    ∧ ∀ mn2 d2 : Int, 0 ≤ mn2 → mn2 ≤ 11 → 1 ≤ d2 → d2 ≤ daysInMonth y mn2 →
        daysBeforeMonth (isLeapYear y) mn + (d - 1)
          = daysBeforeMonth (isLeapYear y) mn2 + (d2 - 1) → mn = mn2 ∧ d = d2 := by
  have key : ∀ a : Int, 0 ≤ a → a ≤ 11 →
      daysBeforeMonth (isLeapYear y) a + daysInMonth y a
        = (if a = 11 then (if isLeapYear y = true then 366 else 365)
            else daysBeforeMonth (isLeapYear y) (a + 1))
      ∧ daysBeforeMonth (isLeapYear y) a + daysInMonth y a
          ≤ (if isLeapYear y = true then 366 else 365)
      ∧ 0 ≤ daysBeforeMonth (isLeapYear y) a := by
    intro a ha0 ha1
    have hc : a = 0 ∨ a = 1 ∨ a = 2 ∨ a = 3 ∨ a = 4 ∨ a = 5 ∨ a = 6 ∨ a = 7 ∨ a = 8
        ∨ a = 9 ∨ a = 10 ∨ a = 11 := by omega
    unfold daysInMonth
    generalize isLeapYear y = l
    rcases hc with h | h | h | h | h | h | h | h | h | h | h | h <;> subst h
      <;> cases l <;> decide
  have mono : ∀ a b : Int, 0 ≤ a → a < b → b ≤ 11 →
      daysBeforeMonth (isLeapYear y) a + daysInMonth y a
        ≤ daysBeforeMonth (isLeapYear y) b := by
    intro a b ha hab hb
    have hca : a = 0 ∨ a = 1 ∨ a = 2 ∨ a = 3 ∨ a = 4 ∨ a = 5 ∨ a = 6 ∨ a = 7 ∨ a = 8
        ∨ a = 9 ∨ a = 10 := by omega
    have hcb : b = 1 ∨ b = 2 ∨ b = 3 ∨ b = 4 ∨ b = 5 ∨ b = 6 ∨ b = 7 ∨ b = 8
        ∨ b = 9 ∨ b = 10 ∨ b = 11 := by omega
    unfold daysInMonth
    generalize isLeapYear y = l
    rcases hca with h | h | h | h | h | h | h | h | h | h | h <;> subst h
      <;> rcases hcb with h | h | h | h | h | h | h | h | h | h | h <;> subst h
      <;> first
        | exact absurd hab (by decide)
        | (cases l <;> decide)
  obtain ⟨_, hub, hlb⟩ := key mn h0 h1
  refine ⟨by omega, by omega, ?_⟩
  intro mn2 d2 h20 h21 hd21 hd22 heq
  rcases lt_trichotomy mn mn2 with hlt | heq2 | hgt
  · have := mono mn mn2 h0 hlt h21
    omega
  · subst heq2
    exact ⟨rfl, by omega⟩
  · have := mono mn2 mn h20 hgt h1
    omega

/-- A time value is the time value of at most one calendar date and time of day. -/
theorem civilTime_injective (y1 mn1 d1 h1 m1 y2 mn2 d2 h2 m2 : Int)
    (hv1 : ValidCivil y1 mn1 d1 h1 m1) (hv2 : ValidCivil y2 mn2 d2 h2 m2)
    (heq : civilTime y1 mn1 d1 h1 m1 = civilTime y2 mn2 d2 h2 m2) :
    y1 = y2 ∧ mn1 = mn2 ∧ d1 = d2 ∧ h1 = h2 ∧ m1 = m2 := by
  obtain ⟨a0, a1, a2, a3, a4, a5, a6, a7⟩ := hv1
  obtain ⟨b0, b1, b2, b3, b4, b5, b6, b7⟩ := hv2
  obtain ⟨p0, p1, p2⟩ := dayOfYear_table y1 mn1 d1 a0 a1 a2 a3
  obtain ⟨q0, q1, q2⟩ := dayOfYear_table y2 mn2 d2 b0 b1 b2 b3
  unfold civilTime at heq
  have hs1 := dayFromYear_succ y1
  have hs2 := dayFromYear_succ y2
  have hy : y1 = y2 := by
    rcases lt_trichotomy y1 y2 with hlt | he | hgt
    · have := dayFromYear_mono (y1 + 1) y2 (by omega)
      omega
    · exact he
    · have := dayFromYear_mono (y2 + 1) y1 (by omega)
      omega
  subst hy
  have hday : daysBeforeMonth (isLeapYear y1) mn1 + (d1 - 1)
      = daysBeforeMonth (isLeapYear y1) mn2 + (d2 - 1) := by omega
  obtain ⟨hmn, hd⟩ := p2 mn2 d2 b0 b1 b2 b3 hday
  subst hmn
  subst hd
  exact ⟨rfl, rfl, rfl, by omega, by omega⟩

/-- A call of `Date.UTC` with a year from 100 to 275759, a month from -1 to 11 and a day, an
hour and a minute of two digits stays in the range of time values. -/
theorem dateUTC_in_range (y mo d h m : Int) (hy : 100 ≤ y) (hy2 : y ≤ 275759)
    (hmo : -1 ≤ mo) (hmo2 : mo ≤ 11) (hd : 0 ≤ d) (hd2 : d ≤ 99)
    (hh : 0 ≤ h) (hh2 : h ≤ 99) (hm : 0 ≤ m) (hm2 : m ≤ 99) :
    dateUTC y mo d h m = some (makeDay y mo d * 86400000 + makeTime h m) := by
  unfold dateUTC
  rw [if_neg (by omega)]
  unfold timeClip
  rw [if_pos]
  rw [abs_le]
  have hb := daysBeforeMonth_bounds (isLeapYear (y + mo / 12)) (mo % 12)
  have hmd : makeDay y mo d
      = dayFromYear (y + mo / 12) + daysBeforeMonth (isLeapYear (y + mo / 12)) (mo % 12)
        + d - 1 := rfl
  rw [hmd]
  unfold makeTime dayFromYear
  generalize daysBeforeMonth (isLeapYear (y + mo / 12)) (mo % 12) = q at hb ⊢
  constructor <;> omega

theorem makeDay_same_month (y mo d : Int) (h0 : 0 ≤ mo) (h1 : mo ≤ 11) :
    makeDay y mo d = dayFromYear y + daysBeforeMonth (isLeapYear y) mo + (d - 1) := by
  unfold makeDay
  have hq : mo / 12 = 0 := by omega
  have hr : mo % 12 = mo := by omega
  rw [hq, hr]
  simp only [add_zero]
  omega

theorem makeDay_previous_month (y mo d : Int) (h0 : 0 ≤ mo) (h1 : mo ≤ 11) :
    makeDay y (mo - 1) d
      = dayFromYear (previousMonth y mo).1
        + daysBeforeMonth (isLeapYear (previousMonth y mo).1) (previousMonth y mo).2
        + (d - 1) := by
  unfold previousMonth
  split
  · rename_i hz
    subst hz
    unfold makeDay
    have hq : ((0 : Int) - 1) / 12 = -1 := by decide
    have hr : ((0 : Int) - 1) % 12 = 11 := by decide
    rw [hq, hr]
    simp only
    have hy : y + -1 = y - 1 := by omega
    rw [hy]
    omega
  · rename_i hz
    simp only
    exact makeDay_same_month y (mo - 1) d (by omega) (by omega)

theorem digitsVal_two_le (a b : Char) (ha : isDigit a = true) (hb : isDigit b = true) :
    digitsVal [a, b] ≤ 99 := by
  rw [digitsVal_two]
  have := digitVal_le ha
  have := digitVal_le hb
  omega

/-- The three slices of a token `DDHHMMZ` and the choice of the month. -/
theorem parseMetarTime_token (now : UTCDate) (d1 d2 h1 h2 m1 m2 : Char) :
    parseMetarTime now [d1, d2, h1, h2, m1, m2, 'Z']
      = dateUTC now.year
          (if ((digitsVal [d1, d2] : Nat) : Int) > now.date then now.month - 1
            else now.month)
          (digitsVal [d1, d2]) (digitsVal [h1, h2]) (digitsVal [m1, m2]) := rfl

/-! ## Properties of the decoder -/

/-- C1: for every non-negative integer speed `s`, `classifyWind s` is `severe` when
`55 ≤ s`, `strong` when `40 ≤ s ≤ 54`, `breezy` when `25 ≤ s ≤ 39` and the empty class
string when `s ≤ 24`; in particular 24 gives the empty class, 25 and 39 give `breezy`, 40
and 54 give `strong`, 55 gives `severe`. -/
theorem classifyWind_tiers (s : Nat) :
    (55 ≤ s → classifyWind s = "severe")
    ∧ (40 ≤ s → s ≤ 54 → classifyWind s = "strong")
    ∧ (25 ≤ s → s ≤ 39 → classifyWind s = "breezy")
    ∧ (s ≤ 24 → classifyWind s = "")
    ∧ classifyWind 24 = "" ∧ classifyWind 25 = "breezy" ∧ classifyWind 39 = "breezy"
    ∧ classifyWind 40 = "strong" ∧ classifyWind 54 = "strong"
    ∧ classifyWind 55 = "severe" := by
  refine ⟨?_, ?_, ?_, ?_, by decide, by decide, by decide, by decide, by decide, by decide⟩
  · intro h
    unfold classifyWind
    rw [if_pos h]
  · intro h1 h2
    unfold classifyWind
    rw [if_neg (by omega), if_pos h1]
  · intro h1 h2
    unfold classifyWind
    rw [if_neg (by omega), if_neg (by omega), if_pos h1]
  · intro h
    unfold classifyWind
    rw [if_neg (by omega), if_neg (by omega), if_neg (by omega)]

/-- Witness for C1: the four tiers at the speeds 70, 47, 30 and 10. -/
theorem classifyWind_tiers_witness :
    classifyWind 70 = "severe" ∧ classifyWind 47 = "strong"
    ∧ classifyWind 30 = "breezy" ∧ classifyWind 10 = "" :=
  ⟨(classifyWind_tiers 70).1 (by decide),
   (classifyWind_tiers 47).2.1 (by decide) (by decide),
   (classifyWind_tiers 30).2.2.1 (by decide) (by decide),
   (classifyWind_tiers 10).2.2.2.1 (by decide)⟩

/-- C2 (evaluation at the failing input): on `28030G00KT` the wind pattern captures the
gust group `00`, and the class is `breezy`, the class of the speed 30, whereas the class
of the captured gust 0 is the empty one; the part `gusting` is left out as well. -/
theorem wind_gust_zero_uses_speed :
    windMatch "28030G00KT".toList
        = some ⟨"280".toList, "30".toList, some "00".toList⟩
    ∧ (decodeMetar "28030G00KT".toList).wind
        = some ⟨"breezy", 280, some "W", 30, none⟩
    ∧ classifyWind 30 = "breezy"
    ∧ classifyWind (digitsVal "00".toList) = "" := by
  decide

/-- C3 (as stated, refuted): `degToCompass 44` is NE, not N: 44 / 45 rounds to 1. -/
theorem degToCompass_44_not_N :
    degToCompass 44 = some "NE" ∧ degToCompass 44 ≠ some "N" := by
  decide

/-- C3 (amended): `degToCompass` maps 0 to N, 44 to NE, 46 to NE and 360 to N. -/
theorem degToCompass_examples :
    degToCompass 0 = some "N" ∧ degToCompass 44 = some "NE"
    ∧ degToCompass 46 = some "NE" ∧ degToCompass 360 = some "N" := by
  decide

/-- C4: for every integer `d` with `0 ≤ d ≤ 360`, `degToCompass d` is the element at index
`k mod 8` of the list `[N, NE, E, SE, S, SW, W, NW]`, written out in the statement, where
`k` is `d / 45` rounded to the nearest integer (`|d / 45 - k| < 1/2`, with
`k = ⌊d / 45 + 1/2⌋`); the bearing `45 * k` differs from `d` by at most 22 degrees and `k`
is the only integer with that property.  The nine bearings `0, 45, ..., 360` get the labels
N, NE, E, SE, S, SW, W, NW, N. -/
theorem degToCompass_nearest (d : Nat) (h : d ≤ 360) :
    (∃ (k : Nat) (p : String),
      degToCompass d = some p
      ∧ ["N", "NE", "E", "SE", "S", "SW", "W", "NW"][k % 8]? = some p
      ∧ ((k : Nat) : Int) = ⌊(d : ℚ) / 45 + 1 / 2⌋
      ∧ |(d : ℚ) / 45 - k| < 1 / 2
      ∧ k ≤ 8
      ∧ (45 * k ≤ d + 22 ∧ d ≤ 45 * k + 22)
      ∧ ∀ j : Nat, 45 * j ≤ d + 22 → d ≤ 45 * j + 22 → j = k)
    ∧ degToCompass 0 = some "N" ∧ degToCompass 45 = some "NE"
    ∧ degToCompass 90 = some "E" ∧ degToCompass 135 = some "SE"
    ∧ degToCompass 180 = some "S" ∧ degToCompass 225 = some "SW"
    ∧ degToCompass 270 = some "W" ∧ degToCompass 315 = some "NW"
    ∧ degToCompass 360 = some "N" := by
  have hk : mathRoundDiv d 45 % 8 < compassPoints.length := by
    have : compassPoints.length = 8 := rfl
    omega
  have hb : 45 * mathRoundDiv d 45 ≤ d + 22 ∧ d ≤ 45 * mathRoundDiv d 45 + 22 := by
    unfold mathRoundDiv
    omega
  have hlist : compassPoints = ["N", "NE", "E", "SE", "S", "SW", "W", "NW"] := rfl
  refine ⟨⟨mathRoundDiv d 45, compassPoints[mathRoundDiv d 45 % 8], ?_, ?_, ?_, ?_, ?_, hb, ?_⟩,
    by decide, by decide, by decide, by decide, by decide, by decide, by decide, by decide,
    by decide⟩
  · unfold degToCompass
    exact List.getElem?_eq_getElem hk
  · rw [← hlist]
    exact List.getElem?_eq_getElem hk
  · have := mathRoundDiv_eq_floor d 45 (by decide)
    simpa using this
  · obtain ⟨h1, h2⟩ := hb
    have h1' : (45 : ℚ) * (mathRoundDiv d 45 : ℚ) ≤ (d : ℚ) + 22 := by exact_mod_cast h1
    have h2' : (d : ℚ) ≤ 45 * (mathRoundDiv d 45 : ℚ) + 22 := by exact_mod_cast h2
    rw [abs_lt]
    constructor
    · linarith
    · linarith
  · unfold mathRoundDiv
    omega
  · intro j hj1 hj2
    unfold mathRoundDiv
    omega

/-- Witness for C4: the direction 280 of the end-to-end scenario; its nearest bearing is
`45 * 6 = 270`, and the element at index 6 of the list is W. -/
theorem degToCompass_nearest_witness :
    (280 : Nat) ≤ 360 ∧ degToCompass 280 = some "W" := by
  refine ⟨by decide, ?_⟩
  obtain ⟨k, p, hp, hlist, _, _, _, _, huniq⟩ := (degToCompass_nearest 280 (by decide)).1
  have hk : 6 = k := huniq 6 (by decide) (by decide)
  subst hk
  rw [hp]
  exact hlist.symm.trans (by decide)

/-- C5 (as stated, refuted): on `99915KT` the wind rule matches and the decoded direction
is 999, which is not between 0 and 360. -/
theorem wind_dir_above_360 :
    (decodeMetar "99915KT".toList).wind = some ⟨"", 999, some "W", 15, none⟩
    ∧ ¬ (∀ (s : List Char) (w : Wind), (decodeMetar s).wind = some w → w.dir ≤ 360) := by
  refine ⟨by decide, ?_⟩
  intro hall
  have := hall "99915KT".toList ⟨"", 999, some "W", 15, none⟩ (by decide)
  exact absurd this (by decide)

/-- C5 (amended): for every input on which the wind rule matches, the decoded wind
direction is the value of three decimal digits, an integer between 0 and 999
inclusive. -/
theorem wind_dir_le_999 (s : List Char) (w : Wind) (h : (decodeMetar s).wind = some w) :
    0 ≤ w.dir ∧ w.dir ≤ 999 := by
  refine ⟨Nat.zero_le _, ?_⟩
  unfold decodeMetar at h
  split at h
  · simp at h
  · simp only [decodeWind, Option.map_eq_some'] at h
    obtain ⟨m, hm, hw⟩ := h
    obtain ⟨p, t, hpt⟩ := regexSearch_some _ _ _ _ hm
    obtain ⟨⟨d1, d2, d3, hg1, h1, h2, h3⟩, _, _⟩ := windAt_shape t m hpt
    subst hw
    simp only [hg1, digitsVal_three]
    have := digitVal_le h1
    have := digitVal_le h2
    have := digitVal_le h3
    omega

/-- Witness for C5 (amended): the end-to-end scenario, whose direction is 280. -/
theorem wind_dir_le_999_witness :
    (decodeMetar scenario).wind = some ⟨"breezy", 280, some "W", 15, some 25⟩
    ∧ (0 ≤ 280 ∧ 280 ≤ 999) :=
  ⟨by decide,
   wind_dir_le_999 scenario ⟨"breezy", 280, some "W", 15, some 25⟩ (by decide)⟩

/-- C6: on `251150Z 28015G25KT 9999 -RA FEW020 BKN035 18/12 Q1015` the decoder yields wind
direction 280 with compass W, speed 15, gust 25 and class `breezy`; visibility 9999 metres;
the weather list `[Light rain]`; the cloud layers `[Few at 2000 ft, Broken at 3500 ft]` in
that order; temperature 18 and dew point 12; pressure 1015; and no station wind. -/
theorem decodeMetar_scenario :
    (decodeMetar scenario).wind = some ⟨"breezy", 280, some "W", 15, some 25⟩
    ∧ (decodeMetar scenario).visibility.map (fun v => v.metres) = some 9999
    ∧ (decodeMetar scenario).weatherHtml = some ["• Light rain"]
    ∧ (decodeMetar scenario).cloudsHtml
        = some (Clouds.layers [("Few", 2000), ("Broken", 3500)])
    ∧ (decodeMetar scenario).temperature = some ⟨some 18, some 12⟩
    ∧ (decodeMetar scenario).qnhValue = some 1015
    ∧ (decodeMetar scenario).kaukau = none := by
  decide

/-- C7 (as stated, refuted): the kilometre figure attached to the visibility of 9999
metres of the end-to-end scenario is `10.0`, not `9.9`. -/
theorem visibility_km_9999_not_9_9 :
    (decodeMetar scenario).visibility = some ⟨9999, "10.0"⟩
    ∧ (decodeMetar scenario).visibility.map (fun v => v.km) ≠ some "9.9" := by
  decide

/-- C7 (amended): the kilometre figure that the decoder attaches to a visibility of 9999
metres is `10.0`: `toFixed(1)` rounds 9.999 to the nearest tenth. -/
theorem visibility_km_9999 (s : List Char) (v : Visibility)
    (h : (decodeMetar s).visibility = some v) (hv : v.metres = 9999) : v.km = "10.0" := by
  unfold decodeMetar at h
  split at h
  · simp at h
  · simp only [decodeVisibility, Option.map_eq_some'] at h
    obtain ⟨g, _, hg⟩ := h
    subst hg
    simp only at hv
    simp only [hv]
    decide

/-- Witness for C7 (amended): the end-to-end scenario. -/
theorem visibility_km_9999_witness :
    (decodeMetar scenario).visibility = some ⟨9999, "10.0"⟩
    ∧ (⟨9999, "10.0"⟩ : Visibility).km = "10.0" :=
  ⟨by decide, visibility_km_9999 scenario ⟨9999, "10.0"⟩ (by decide) rfl⟩

/-- C8 (as stated, refuted): on `R16/0600` the visibility field is present, with value 600,
although no token of the text (tokens being separated by spaces) is made of exactly four
digits: the only token is `R16/0600`. -/
theorem visibility_without_space_token :
    (decodeMetar "R16/0600".toList).visibility = some ⟨600, "0.6"⟩
    ∧ spaceTokens "R16/0600".toList = ["R16/0600".toList]
    ∧ ¬ ∃ t ∈ spaceTokens "R16/0600".toList, t.length = 4 ∧ allDigits t = true := by
  decide

/-- C8 (amended): for every input, the visibility field is present if and only if the text
contains a run of exactly four digits that stands alone, that is with no word character
(letter, digit or underscore) right before it or right after it; and the value in metres is
`v` if and only if `v` is the numeric value, unscaled, of the leftmost such run. -/
theorem visibility_standalone (s : List Char) :
    ((decodeMetar s).visibility.isSome = true
      ↔ ∃ pre g post, s = pre ++ g ++ post ∧ StandaloneFourDigits pre g post)
    ∧ ∀ v, (decodeMetar s).visibility.map (fun x => x.metres) = some v
      ↔ ∃ pre g post, s = pre ++ g ++ post ∧ StandaloneFourDigits pre g post
          ∧ v = digitsVal g
          ∧ ∀ pre1 g1 post1, s = pre1 ++ g1 ++ post1 →
              StandaloneFourDigits pre1 g1 post1 → pre.length ≤ pre1.length := by
  rw [decodeMetar_visibility]
  unfold decodeVisibility
  constructor
  · rw [Option.isSome_map', ← Option.ne_none_iff_isSome, Ne, visMatch_eq_none_iff, not_not]
  · intro v
    constructor
    · intro h
      simp only [Option.map_map, Option.map_eq_some', Function.comp] at h
      obtain ⟨g, hg, hv⟩ := h
      rw [visMatch_eq_some_iff] at hg
      obtain ⟨pre, post, hs, hst, hleft⟩ := hg
      exact ⟨pre, g, post, hs, hst, hv.symm, hleft⟩
    · rintro ⟨pre, g, post, hs, hst, hv, hleft⟩
      have hg : visMatch s = some g := (visMatch_eq_some_iff s g).mpr ⟨pre, post, hs, hst, hleft⟩
      simp [hg, hv]

/-- C9 (as stated, refuted): on `9999 RA=` the weather list is `[Rain]`, although the text
contains neither `-RA` nor `+RA` and `RA` is not a whole token of it (tokens being
separated by spaces, the tokens are `9999` and `RA=`). -/
theorem rain_without_space_token :
    (decodeMetar "9999 RA=".toList).weatherHtml = some ["• Rain"]
    ∧ spaceTokens "9999 RA=".toList = ["9999".toList, "RA=".toList]
    ∧ "RA".toList ∉ spaceTokens "9999 RA=".toList
    ∧ ¬ "-RA".toList <:+: "9999 RA=".toList
    ∧ ¬ "+RA".toList <:+: "9999 RA=".toList := by
  refine ⟨by decide, by decide, by decide, ?_, ?_⟩
  · rw [← includes_iff]
    decide
  · rw [← includes_iff]
    decide

/-- C9 (amended): for every input, the weather list is `now ++ recent`, where `now` is
`[Light rain]` if the text contains `-RA`, otherwise `[Heavy rain]` if it contains `+RA`,
otherwise `[Rain]` if `RA` occurs standing alone (no letter, digit or underscore right
before or right after it), otherwise `[]`; and `recent` is `[Recent rain]` exactly when the
text contains `RERA`.  Hence `now` has at most one entry, and the weather field is absent
exactly when the list is empty, else it holds the list. -/
theorem weather_priority (s : List Char) :
    ∃ now recent : List String,
      weatherList s = now ++ recent
      ∧ (now = ["• Light rain"] ↔ "-RA".toList <:+: s)
      ∧ (now = ["• Heavy rain"] ↔ ¬ "-RA".toList <:+: s ∧ "+RA".toList <:+: s)
      ∧ (now = ["• Rain"]
          ↔ ¬ "-RA".toList <:+: s ∧ ¬ "+RA".toList <:+: s ∧ BareRA s)
      ∧ (now = [] ↔ ¬ "-RA".toList <:+: s ∧ ¬ "+RA".toList <:+: s ∧ ¬ BareRA s)
      ∧ (recent = ["• Recent rain"] ↔ "RERA".toList <:+: s)
      ∧ (recent = [] ↔ ¬ "RERA".toList <:+: s)
      ∧ now.length ≤ 1
      ∧ (decodeMetar s).weatherHtml
          = if now ++ recent = [] then none else some (now ++ recent) := by
  refine ⟨if includes s "-RA".toList then ["• Light rain"]
      else if includes s "+RA".toList then ["• Heavy rain"]
      else if (regexSearch bareRAAt none s).isSome then ["• Rain"]
      else [],
    if includes s "RERA".toList then ["• Recent rain"] else [], rfl, ?_⟩
  rw [← includes_iff, ← includes_iff, ← includes_iff, ← bareRA_test_iff]
  refine ⟨?_, ?_, ?_, ?_, ?_, ?_, ?_, ?_⟩
  · cases includes s "-RA".toList <;> cases includes s "+RA".toList
      <;> cases (regexSearch bareRAAt none s).isSome <;> simp
  · cases includes s "-RA".toList <;> cases includes s "+RA".toList
      <;> cases (regexSearch bareRAAt none s).isSome <;> simp
  · cases includes s "-RA".toList <;> cases includes s "+RA".toList
      <;> cases (regexSearch bareRAAt none s).isSome <;> simp
  · cases includes s "-RA".toList <;> cases includes s "+RA".toList
      <;> cases (regexSearch bareRAAt none s).isSome <;> simp
  · cases includes s "RERA".toList <;> simp
  · cases includes s "RERA".toList <;> simp
  · cases includes s "-RA".toList <;> cases includes s "+RA".toList
      <;> cases (regexSearch bareRAAt none s).isSome <;> simp
  · exact decodeMetar_weatherHtml s

/-- C10: for every input, the cloud layers produced by the decoder are exactly the
occurrences, in left-to-right order and with duplicates kept, of one of `FEW`, `SCT`, `BKN`,
`OVC` immediately followed by three digits, each mapped to the name of the coverage and 100
times the three-digit number: the mapped matches are the layers at the positions
`0, 1, 2, ...` of the text, the clouds field holds a list of layers exactly when that list
is not empty, and two occurrences are never less than six characters apart (they do not
overlap).  A text containing `FEW010 BKN025 OVC040` yields the three layers Few 1000 ft,
Broken 2500 ft, Overcast 4000 ft in that order. -/
theorem cloud_layers_in_order (s : List Char) :
    (cloudMatches s).map cloudLayer = cloudLayersOf s
    ∧ (∀ ls, (decodeMetar s).cloudsHtml = some (Clouds.layers ls)
        ↔ ls = cloudLayersOf s ∧ ls ≠ [])
    ∧ (∀ i k, 1 ≤ k → k ≤ 5 → cloudLayerAt s i ≠ none → cloudLayerAt s (i + k) = none)
    ∧ (decodeMetar "NZWN 251150Z FEW010 BKN025 OVC040 18/12".toList).cloudsHtml
        = some (Clouds.layers [("Few", 1000), ("Broken", 2500), ("Overcast", 4000)]) := by
  refine ⟨cloudMatches_map s, ?_, ?_, by decide⟩
  · intro ls
    rw [decodeMetar_cloudsHtml]
    unfold decodeClouds
    simp only [cloudMatches_map]
    by_cases hlen : (cloudMatches s).length ≠ 0
    · have hne : cloudLayersOf s ≠ [] := by
        rw [← cloudMatches_map]
        intro h
        apply hlen
        simpa using h
      rw [if_pos hlen]
      constructor
      · intro h
        simp only [Option.some.injEq, Clouds.layers.injEq] at h
        exact ⟨h.symm, h ▸ hne⟩
      · rintro ⟨h, _⟩
        rw [h]
    · have he : cloudLayersOf s = [] := by
        rw [← cloudMatches_map]
        simpa using hlen
      rw [if_neg hlen]
      constructor
      · intro h
        split at h <;> simp at h
      · rintro ⟨h, hne⟩
        exact absurd (h.trans he) hne
  · intro i k hk1 hk5 hi
    rw [cloudLayerAt_eq] at hi ⊢
    cases hm : cloudAt (s.drop i) with
    | none => rw [hm] at hi; exact absurd rfl hi
    | some m =>
      cases hs : s.drop i with
      | nil => rw [hs] at hm; simp [cloudAt] at hm
      | cons c t =>
        rw [hs] at hm
        have hno := cloudAt_no_overlap c t m hm (k - 1) (by omega)
        have hdrop : s.drop (i + k) = t.drop (k - 1) := by
          have : i + k = i + ((k - 1) + 1) := by omega
          rw [this, ← List.drop_drop, hs, List.drop_succ_cons]
        rw [hdrop, hno]
        rfl

/-- Witness for C10: in `FEW010 BKN025`, the layer at position 0 leaves no layer at
position 3. -/
theorem cloud_layers_in_order_witness :
    cloudLayerAt "FEW010 BKN025".toList 0 ≠ none
    ∧ cloudLayerAt "FEW010 BKN025".toList (0 + 3) = none
    ∧ cloudLayersOf "FEW010 BKN025".toList = [("Few", 1000), ("Broken", 2500)] :=
  ⟨by decide,
   (cloud_layers_in_order "FEW010 BKN025".toList).2.2.1 0 3 (by decide) (by decide)
     (by decide),
   by decide⟩

/-- C14: for every input, the pressure field is absent when (and only when) the text
contains no `Q` immediately followed by four digits, and otherwise it equals the integer
value, unscaled, of the four digits after the leftmost such `Q`. -/
theorem pressure_leftmost_q (s : List Char) :
    ((decodeMetar s).qnhValue = none ↔ ¬ ∃ pre g, OccursAt QnhStarts s pre g)
    ∧ ∀ v, (decodeMetar s).qnhValue = some v
        ↔ ∃ pre g, LeftmostAt QnhStarts s pre g ∧ v = digitsVal g := by
  rw [decodeMetar_qnhValue]
  unfold decodeQnh
  constructor
  · rw [Option.map_eq_none', search_eq_none_iff qnhAt QnhStarts qnhAt_eq_some_iff]
  · intro v
    rw [Option.map_eq_some']
    constructor
    · rintro ⟨g, hg, hv⟩
      obtain ⟨pre, hpre⟩ := (search_eq_some_iff qnhAt QnhStarts qnhAt_eq_some_iff s g).mp hg
      exact ⟨pre, g, hpre, hv.symm⟩
    · rintro ⟨pre, g, hpre, hv⟩
      exact ⟨g, (search_eq_some_iff qnhAt QnhStarts qnhAt_eq_some_iff s g).mpr ⟨pre, hpre⟩,
        hv.symm⟩

/-- C12: for every two-digit string `dd` with numeric value `n`, `parseTemp dd = n` and
`parseTemp ("M" ++ dd) = -n`; in particular `M05` gives -5, `07` gives 7 and `M00`
gives 0. -/
theorem parseTemp_signed (d1 d2 : Char) (h1 : isDigit d1 = true) (h2 : isDigit d2 = true) :
    parseTemp [d1, d2] = some ((digitsVal [d1, d2] : Nat) : Int)
    ∧ parseTemp ('M' :: [d1, d2]) = some (-((digitsVal [d1, d2] : Nat) : Int))
    ∧ parseTemp "M05".toList = some (-5)
    ∧ parseTemp "07".toList = some 7
    ∧ parseTemp "M00".toList = some 0 :=
  ⟨(parseTemp_two_digits d1 d2 h1 h2).1, (parseTemp_two_digits d1 d2 h1 h2).2,
    by decide, by decide, by decide⟩

/-- Witness for C12: the string `18` of the end-to-end scenario. -/
theorem parseTemp_signed_witness :
    parseTemp "18".toList = some 18 ∧ parseTemp "M18".toList = some (-18) :=
  ⟨(parseTemp_signed '1' '8' (by decide) (by decide)).1,
   (parseTemp_signed '1' '8' (by decide) (by decide)).2.1⟩

/-- C13: for every input, the temperature field is present if and only if the text
contains a pair `TT/DD`, each side being exactly two digits optionally prefixed by `M`,
with a space immediately before and a space immediately after the pair; when present, the
temperature is `parseTemp TT` and the dew point `parseTemp DD` of the leftmost such pair. A
pair that ends the text with no space after it is not decoded. -/
theorem temperature_leftmost_pair (s : List Char) :
    ((decodeMetar s).temperature.isSome = true ↔ ∃ pre r, OccursAt TempPairStarts s pre r)
    ∧ (∀ x, (decodeMetar s).temperature = some x
        ↔ ∃ pre r, LeftmostAt TempPairStarts s pre r
            ∧ x = ⟨parseTemp r.1, parseTemp r.2⟩)
    ∧ (decodeMetar "9999 18/12 Q1015".toList).temperature = some ⟨some 18, some 12⟩
    ∧ (decodeMetar "9999 Q1015 18/12".toList).temperature = none := by
  refine ⟨?_, ?_, by decide, by decide⟩
  · rw [decodeMetar_temperature]
    unfold decodeTemperature
    rw [Option.isSome_map', ← Option.ne_none_iff_isSome, Ne,
      search_eq_none_iff tempAt TempPairStarts tempAt_eq_some_iff, not_not]
  · intro x
    rw [decodeMetar_temperature]
    unfold decodeTemperature
    rw [Option.map_eq_some']
    constructor
    · rintro ⟨r, hr, hx⟩
      obtain ⟨pre, hpre⟩ :=
        (search_eq_some_iff tempAt TempPairStarts tempAt_eq_some_iff s r).mp hr
      exact ⟨pre, r, hpre, hx.symm⟩
    · rintro ⟨pre, r, hpre, hx⟩
      exact ⟨r, (search_eq_some_iff tempAt TempPairStarts tempAt_eq_some_iff s r).mpr
        ⟨pre, hpre⟩, hx.symm⟩

/-- C11: for every non-empty input with no cloud layer in it: if the text contains `NCD` the
clouds field is the line `No clouds detected`, and if it does not contain `NCD` the clouds
field is absent; and whenever the text shows at least one cloud layer, that line is not
produced, whether `NCD` is in the text or not. -/
theorem clouds_sentinel (s : List Char) (hs : s ≠ []) :
    (cloudLayersOf s = [] → "NCD".toList <:+: s →
        (decodeMetar s).cloudsHtml = some Clouds.noCloudsDetected)
    ∧ (cloudLayersOf s = [] → ¬ "NCD".toList <:+: s → (decodeMetar s).cloudsHtml = none)
    ∧ (cloudLayersOf s ≠ [] →
        (decodeMetar s).cloudsHtml ≠ some Clouds.noCloudsDetected) := by
  have hfield : (decodeMetar s).cloudsHtml = decodeClouds s := by
    unfold decodeMetar
    rw [if_neg hs]
  rw [hfield]
  unfold decodeClouds
  simp only [← includes_iff, ← cloudMatches_length_eq_zero_iff]
  refine ⟨?_, ?_, ?_⟩
  · intro h0 hn
    rw [if_neg (not_not.mpr h0), if_pos hn]
  · intro h0 hn
    rw [if_neg (not_not.mpr h0), if_neg hn]
  · intro h0
    have h1 : (cloudMatches s).length ≠ 0 :=
      fun h => h0 ((cloudMatches_length_eq_zero_iff s).mp h)
    rw [if_pos h1]
    intro h
    cases h

/-- Witness for C11: the text `NZWN NCD` has no cloud layer and contains `NCD`. -/
theorem clouds_sentinel_witness :
    "NZWN NCD".toList ≠ [] ∧ cloudLayersOf "NZWN NCD".toList = []
    ∧ (decodeMetar "NZWN NCD".toList).cloudsHtml = some Clouds.noCloudsDetected :=
  ⟨by decide, by decide,
   (clouds_sentinel "NZWN NCD".toList (by decide)).1 (by decide)
     ((includes_iff _ _).mp (by decide))⟩

/-- C15: for every input, the station-wind field is present if and only if the text
contains the literal `KAUKAU` followed by one or more white space characters and a group of
three digits, two digits, optionally `G` and two digits, and `KT`; when present it holds the
direction and the speed of the leftmost such occurrence, its class is `classifyWind` of the
speed whatever gust the group carries, and the gust is no part of the field (on
`KAUKAU 31045G60KT` the class is `strong`, that of the speed 45). -/
theorem station_wind_leftmost (s : List Char) :
    ((decodeMetar s).kaukau.isSome = true ↔ ∃ pre w, OccursAt StationStarts s pre w)
    ∧ (∀ k, (decodeMetar s).kaukau = some k
        ↔ ∃ pre w, LeftmostAt StationStarts s pre w
            ∧ k = ⟨classifyWind (digitsVal w.g2), digitsVal w.g1,
                    degToCompass (digitsVal w.g1), digitsVal w.g2⟩)
    ∧ (∀ k, (decodeMetar s).kaukau = some k → k.cls = classifyWind k.spd)
    ∧ (decodeMetar "KAUKAU 31045G60KT".toList).kaukau = some ⟨"strong", 310, some "NW", 45⟩
    ∧ classifyWind 60 = "severe" := by
  have hsome : ∀ k, (decodeMetar s).kaukau = some k
      ↔ ∃ pre w, LeftmostAt StationStarts s pre w
          ∧ k = ⟨classifyWind (digitsVal w.g2), digitsVal w.g1,
                  degToCompass (digitsVal w.g1), digitsVal w.g2⟩ := by
    intro k
    rw [decodeMetar_kaukau]
    unfold decodeKaukau
    rw [Option.map_eq_some']
    constructor
    · rintro ⟨w, hw, hk⟩
      obtain ⟨pre, hpre⟩ :=
        (search_eq_some_iff kaukauAt StationStarts kaukauAt_eq_some_iff_starts s w).mp hw
      exact ⟨pre, w, hpre, hk.symm⟩
    · rintro ⟨pre, w, hpre, hk⟩
      exact ⟨w, (search_eq_some_iff kaukauAt StationStarts kaukauAt_eq_some_iff_starts s
        w).mpr ⟨pre, hpre⟩, hk.symm⟩
  refine ⟨?_, hsome, ?_, by decide, by decide⟩
  · rw [decodeMetar_kaukau]
    unfold decodeKaukau
    rw [Option.isSome_map', ← Option.ne_none_iff_isSome, Ne,
      search_eq_none_iff kaukauAt StationStarts kaukauAt_eq_some_iff_starts, not_not]
  · intro k hk
    obtain ⟨_, w, _, hkw⟩ := (hsome k).mp hk
    rw [hkw]

/-- Witness for C15: the class of the station wind of `KAUKAU 31045G60KT` is that of its
speed. -/
theorem station_wind_leftmost_witness :
    (decodeMetar "KAUKAU 31045G60KT".toList).kaukau = some ⟨"strong", 310, some "NW", 45⟩
    ∧ (⟨"strong", 310, some "NW", 45⟩ : StationWind).cls = classifyWind 45 :=
  ⟨by decide,
   (station_wind_leftmost "KAUKAU 31045G60KT".toList).2.2.1 ⟨"strong", 310, some "NW", 45⟩
     (by decide)⟩

/-- C16: the decoder is a total function on strings (every search it runs ends, and no step
of it can fail), it returns the report with every field absent for the empty string, and it
returns that report for every string in which none of the seven rules finds anything. -/
theorem decodeMetar_total_graceful (s : List Char) :
    (∃ r : Report, decodeMetar s = r)
    ∧ decodeMetar [] = {}
    ∧ (NoRuleMatches s → decodeMetar s = {}) := by
  refine ⟨⟨decodeMetar s, rfl⟩, rfl, ?_⟩
  intro h
  rw [noRuleMatches_iff] at h
  obtain ⟨hw, hv, ⟨hl, hh, hb, hr⟩, ⟨hc, hn⟩, ht, hq, hk⟩ := h
  unfold decodeMetar
  split
  · rfl
  · have hwl : weatherList s = [] := by
      unfold weatherList
      rw [hl, hh, hb, hr]
      rfl
    have hcl : decodeClouds s = none := by
      unfold decodeClouds
      dsimp only
      rw [if_neg (not_not.mpr hc), hn]
      rfl
    have hwd : decodeWind s = none := by
      unfold decodeWind
      rw [hw]
      rfl
    have hvs : decodeVisibility s = none := by
      unfold decodeVisibility
      rw [hv]
      rfl
    have htp : decodeTemperature s = none := by
      unfold decodeTemperature
      rw [ht]
      rfl
    have hqn : decodeQnh s = none := by
      unfold decodeQnh
      rw [hq]
      rfl
    have hkk : decodeKaukau s = none := by
      unfold decodeKaukau
      rw [hk]
      rfl
    rw [hwd, hvs, hwl, hcl, htp, hqn, hkk]
    rfl

/-- Witness for C16: in `NZWN AUTO NOSIG` no rule finds anything. -/
theorem decodeMetar_total_graceful_witness :
    NoRuleMatches "NZWN AUTO NOSIG".toList ∧ decodeMetar "NZWN AUTO NOSIG".toList = {} :=
  ⟨(noRuleMatches_iff _).mpr (by decide),
   (decodeMetar_total_graceful "NZWN AUTO NOSIG".toList).2.2
     ((noRuleMatches_iff _).mpr (by decide))⟩

/-- C19: for every input on which the station rule matches, the main wind field is present
as well, the main wind pattern matching the group of the station; and when no wind group
occurs earlier in the text than the group of the decoded station reading (the leftmost
`KAUKAU` occurrence, after `pre`, with the white space `ws`), the direction and the speed of
the main wind are those of the station reading. -/
theorem station_wind_implies_wind (s : List Char) (k : StationWind)
    (hk : (decodeMetar s).kaukau = some k) :
    (∃ w, (decodeMetar s).wind = some w)
    ∧ ∀ pre ws km, LeftmostAt StationStarts s pre km →
        OccursAt StationGroupStarts s pre (ws, km) →
        (∀ pre1 w1, OccursAt WindGroupStarts s pre1 w1 →
          pre.length + 6 + ws.length ≤ pre1.length) →
        ∃ w, (decodeMetar s).wind = some w ∧ w.dir = k.dir ∧ w.spd = k.spd := by
  have hK : "KAUKAU".toList.length = 6 := rfl
  rw [decodeMetar_kaukau] at hk
  unfold decodeKaukau at hk
  rw [Option.map_eq_some'] at hk
  obtain ⟨km0, hkm0, hk0⟩ := hk
  constructor
  · obtain ⟨pre, ⟨rest, hs, ws, g, post, hrest, _, _, hwg⟩, _⟩ :=
      (search_eq_some_iff kaukauAt StationStarts kaukauAt_eq_some_iff_starts s km0).mp hkm0
    have hocc : ∃ pre1 w1, OccursAt WindGroupStarts s pre1 w1 :=
      ⟨pre ++ "KAUKAU".toList ++ ws, km0, g ++ post,
        by rw [hs, hrest]; simp only [List.append_assoc], g, post, rfl, hwg⟩
    rw [decodeMetar_wind]
    unfold decodeWind windMatch
    cases hw : regexSearch (fun _ t => windAt t) none s with
    | none =>
      exact absurd hocc
        ((search_eq_none_iff windAt WindGroupStarts windAt_eq_some_iff s).mp hw)
    | some w => exact ⟨_, rfl⟩
  · intro pre ws km hleft hocc hfirst
    have hkm : km0 = km := by
      have := (search_eq_some_iff kaukauAt StationStarts kaukauAt_eq_some_iff_starts s
        km).mpr ⟨pre, hleft⟩
      rw [hkm0] at this
      exact Option.some.inj this
    subst hkm
    obtain ⟨rest, hs, g, post, hrest, _, _, hwg⟩ := hocc
    simp only at hrest hwg
    have hwind : windMatch s = some km0 := by
      unfold windMatch
      rw [search_eq_some_iff windAt WindGroupStarts windAt_eq_some_iff]
      refine ⟨pre ++ "KAUKAU".toList ++ ws, ⟨g ++ post,
        by rw [hs, hrest]; simp only [List.append_assoc], g, post, rfl, hwg⟩, ?_⟩
      intro pre1 w1 h1
      have := hfirst pre1 w1 h1
      simp only [List.length_append, hK]
      omega
    rw [decodeMetar_wind]
    unfold decodeWind
    rw [hwind]
    refine ⟨_, rfl, ?_, ?_⟩
    · rw [← hk0]
    · rw [← hk0]

/-- Witness for C19: on `NZWN KAUKAU 31045G60KT` both fields are present. -/
theorem station_wind_implies_wind_witness :
    (decodeMetar "NZWN KAUKAU 31045G60KT".toList).kaukau
        = some ⟨"strong", 310, some "NW", 45⟩
    ∧ ∃ w, (decodeMetar "NZWN KAUKAU 31045G60KT".toList).wind = some w :=
  ⟨by decide,
   (station_wind_implies_wind "NZWN KAUKAU 31045G60KT".toList
     ⟨"strong", 310, some "NW", 45⟩ (by decide)).1⟩

/-- C20: for every non-negative integer `d`, and so for every three-digit direction that
the wind and station patterns can capture, the index `round(d / 45) mod 8` lies in `0..7`
and `degToCompass d` is one of the eight compass points; the compass label of a decoded
wind or station wind is therefore never undefined. -/
theorem compass_never_undefined (d : Nat) :
    mathRoundDiv d 45 % 8 < 8
    ∧ (∃ p ∈ compassPoints, degToCompass d = some p)
    ∧ (∀ s w, (decodeMetar s).wind = some w → ∃ p ∈ compassPoints, w.compass = some p)
    ∧ (∀ s k, (decodeMetar s).kaukau = some k → ∃ p ∈ compassPoints, k.compass = some p) := by
  have hidx : ∀ n : Nat, mathRoundDiv n 45 % 8 < compassPoints.length := by
    intro n
    have : compassPoints.length = 8 := rfl
    omega
  have hpt : ∀ n : Nat, ∃ p ∈ compassPoints, degToCompass n = some p := by
    intro n
    have hn := hidx n
    refine ⟨compassPoints[mathRoundDiv n 45 % 8], List.getElem_mem hn, ?_⟩
    unfold degToCompass
    exact List.getElem?_eq_getElem hn
  refine ⟨by omega, hpt d, ?_, ?_⟩
  · intro s w hw
    rw [decodeMetar_wind] at hw
    unfold decodeWind at hw
    rw [Option.map_eq_some'] at hw
    obtain ⟨m, _, hm⟩ := hw
    rw [← hm]
    exact hpt _
  · intro s k hk
    rw [decodeMetar_kaukau] at hk
    unfold decodeKaukau at hk
    rw [Option.map_eq_some'] at hk
    obtain ⟨m, _, hm⟩ := hk
    rw [← hm]
    exact hpt _

/-- Witness for C20: the compass label of the wind of the end-to-end scenario. -/
theorem compass_never_undefined_witness :
    (decodeMetar scenario).wind = some ⟨"breezy", 280, some "W", 15, some 25⟩
    ∧ ∃ p ∈ compassPoints, (⟨"breezy", 280, some "W", 15, some 25⟩ : Wind).compass = some p :=
  ⟨by decide,
   (compass_never_undefined 280).2.2.1 scenario ⟨"breezy", 280, some "W", 15, some 25⟩
     (by decide)⟩

/-- C17 (as stated, refuted): with the current date 2 May 2025 the token `311200Z` does not
resolve to day 31 of April, a day that April does not have: `Date.UTC` carries the day on,
and the result is 1 May 2025 at 12:00 UTC, later than the last minute of April and the time
value of no day of April. -/
theorem parseMetarTime_day_carries_over :
    ValidNow ⟨2025, 4, 2⟩
    ∧ previousMonth 2025 4 = (2025, 3)
    ∧ daysInMonth 2025 3 = 30
    ∧ ¬ ValidCivil 2025 3 31 12 0
    ∧ parseMetarTime ⟨2025, 4, 2⟩ "311200Z".toList = some (civilTime 2025 4 1 12 0)
    ∧ ValidCivil 2025 4 1 12 0
    ∧ civilTime 2025 3 30 23 59 < civilTime 2025 4 1 12 0
    ∧ ∀ d h m, ValidCivil 2025 3 d h m →
        parseMetarTime ⟨2025, 4, 2⟩ "311200Z".toList ≠ some (civilTime 2025 3 d h m) := by
  refine ⟨by decide, by decide, by decide, by decide, by decide, by decide, by decide, ?_⟩
  intro d h m hv heq
  have hres : parseMetarTime ⟨2025, 4, 2⟩ "311200Z".toList
      = some (civilTime 2025 4 1 12 0) := by decide
  rw [hres] at heq
  have hinj := civilTime_injective 2025 4 1 12 0 2025 3 d h m (by decide) hv
    (Option.some.inj heq)
  exact absurd hinj.2.1 (by decide)

/-- C17 (amended): for every valid token `DDHHMM` and every current UTC date whose day of
the month is less than `DD` and whose preceding calendar month has at least `DD` days,
`parseMetarTime` resolves the token to day `DD` of the calendar month immediately preceding
the current month (December of the year before when the current month is January), at
`HH:MM` UTC; for example `311200Z` on 2 February 2025 resolves to 31 January 2025 at 12:00
UTC. -/
theorem parseMetarTime_previous_month (now : UTCDate) (d1 d2 h1 h2 m1 m2 : Char)
    (hnow : ValidNow now)
    (hdig : ∀ c ∈ [d1, d2, h1, h2, m1, m2], isDigit c = true)
    (hh : digitsVal [h1, h2] ≤ 23) (hm : digitsVal [m1, m2] ≤ 59)
    (hday : now.date < ((digitsVal [d1, d2] : Nat) : Int))
    (hfit : ((digitsVal [d1, d2] : Nat) : Int)
      ≤ daysInMonth (previousMonth now.year now.month).1
          (previousMonth now.year now.month).2) :
    parseMetarTime now [d1, d2, h1, h2, m1, m2, 'Z']
        = some (civilTime (previousMonth now.year now.month).1
            (previousMonth now.year now.month).2
            (digitsVal [d1, d2]) (digitsVal [h1, h2]) (digitsVal [m1, m2]))
    ∧ ValidCivil (previousMonth now.year now.month).1 (previousMonth now.year now.month).2
        (digitsVal [d1, d2]) (digitsVal [h1, h2]) (digitsVal [m1, m2])
    ∧ parseMetarTime ⟨2025, 1, 2⟩ "311200Z".toList = some (civilTime 2025 0 31 12 0) := by
  obtain ⟨hy1, hy2, hmo1, hmo2, hdt1, hdt2⟩ := hnow
  have hd99 := digitsVal_two_le d1 d2 (hdig d1 (by simp)) (hdig d2 (by simp))
  refine ⟨?_, ?_, by decide⟩
  · rw [parseMetarTime_token, if_pos hday,
      dateUTC_in_range _ _ _ _ _ hy1 hy2 (by omega) (by omega) (by omega) (by omega)
        (by omega) (by omega) (by omega) (by omega),
      makeDay_previous_month _ _ _ hmo1 hmo2]
    unfold civilTime makeTime
    congr 1
    ring
  · unfold ValidCivil
    have hpm : 0 ≤ (previousMonth now.year now.month).2
        ∧ (previousMonth now.year now.month).2 ≤ 11 := by
      unfold previousMonth
      split <;> simp only <;> omega
    refine ⟨hpm.1, hpm.2, by omega, hfit, by omega, by omega, by omega, by omega⟩

/-- Witness for C17 (amended): the token `311200Z` read on 2 January 2025 resolves to 31
December 2024 at 12:00 UTC. -/
theorem parseMetarTime_previous_month_witness :
    parseMetarTime ⟨2025, 0, 2⟩ [ '3', '1', '1', '2', '0', '0', 'Z']
      = some (civilTime 2024 11 31 12 0)
    ∧ ValidCivil 2024 11 31 12 0 :=
  ⟨(parseMetarTime_previous_month ⟨2025, 0, 2⟩ '3' '1' '1' '2' '0' '0' (by decide)
      (by decide) (by decide) (by decide) (by decide) (by decide)).1,
   (parseMetarTime_previous_month ⟨2025, 0, 2⟩ '3' '1' '1' '2' '0' '0' (by decide)
      (by decide) (by decide) (by decide) (by decide) (by decide)).2.1⟩

/-- C18: for every valid token `DDHHMM` (`1 ≤ DD`, `HH ≤ 23`, `MM ≤ 59`) and every current
UTC date whose day of the month is at least `DD`, `parseMetarTime` resolves the token to the
year and the month of the current date, day `DD`, at `HH:MM` UTC. -/
theorem parseMetarTime_same_month (now : UTCDate) (d1 d2 h1 h2 m1 m2 : Char)
    (hnow : ValidNow now)
    (hdig : ∀ c ∈ [d1, d2, h1, h2, m1, m2], isDigit c = true)
    (hd : 1 ≤ digitsVal [d1, d2])
    (hh : digitsVal [h1, h2] ≤ 23) (hm : digitsVal [m1, m2] ≤ 59)
    (hday : ((digitsVal [d1, d2] : Nat) : Int) ≤ now.date) :
    parseMetarTime now [d1, d2, h1, h2, m1, m2, 'Z']
        = some (civilTime now.year now.month
            (digitsVal [d1, d2]) (digitsVal [h1, h2]) (digitsVal [m1, m2]))
    ∧ ValidCivil now.year now.month
        (digitsVal [d1, d2]) (digitsVal [h1, h2]) (digitsVal [m1, m2]) := by
  obtain ⟨hy1, hy2, hmo1, hmo2, hdt1, hdt2⟩ := hnow
  have hd99 := digitsVal_two_le d1 d2 (hdig d1 (by simp)) (hdig d2 (by simp))
  constructor
  · rw [parseMetarTime_token, if_neg (by omega),
      dateUTC_in_range _ _ _ _ _ hy1 hy2 (by omega) (by omega) (by omega) (by omega)
        (by omega) (by omega) (by omega) (by omega),
      makeDay_same_month _ _ _ hmo1 hmo2]
    unfold civilTime makeTime
    congr 1
    ring
  · unfold ValidCivil
    refine ⟨hmo1, hmo2, by omega, by omega, by omega, by omega, by omega, by omega⟩

/-- Witness for C18: the token `251150Z` read on 25 November 2026 resolves to that day at
11:50 UTC. -/
theorem parseMetarTime_same_month_witness :
    parseMetarTime ⟨2026, 10, 25⟩ [ '2', '5', '1', '1', '5', '0', 'Z']
      = some (civilTime 2026 10 25 11 50)
    ∧ ValidCivil 2026 10 25 11 50 :=
  parseMetarTime_same_month ⟨2026, 10, 25⟩ '2' '5' '1' '1' '5' '0' (by decide) (by decide)
    (by decide) (by decide) (by decide) (by decide)

end WebMetar
